import Mathlib

/-!
# Verification of the cross-reference aggregation model of `quran_scrapper.py`

This file gives a shallow embedding of the data-aggregation core of the
scraping script `src/quran_scrapper.py` (the per-page / per-verse ingestion
loop, lines 251-369) and proves properties of it.

Modelling choices:
* Python `dict`s are embedded as association lists `List (κ × β)` with the
  Python semantics: assignment to an existing key replaces the value in
  place, assignment to a fresh key appends, and a subscript lookup of a
  missing key raises `KeyError` — embedded as an `Option`-valued operation
  (`modifyKey` returns `none` exactly when the key is absent, modelling the
  `KeyError` raised by `d[k]` on a missing key).
* Python `set`s are embedded as duplicate-free insertion lists: `insertSet`
  is a no-op when the element is already present (the only set operation the
  script performs is `.add`).
* The browser-automation source is out of scope (per the spec, an external
  collaborator); an `Obs` record carries exactly the values the script reads
  from the DOM for one verse observation, and a `PageObs` carries a page
  number together with the ordered verse observations of that page.
-/

namespace QuranScrapper

/-! ## Association lists modelling Python dicts -/

/-- The key list of an association list, in insertion order
(Python dicts preserve insertion order). -/
def keysOf {κ β : Type} (m : List (κ × β)) : List κ :=
  m.map Prod.fst

/-- Lookup of a key, i.e. Python `d[k]` when it succeeds. -/
def lookup {κ β : Type} [DecidableEq κ] : List (κ × β) → κ → Option β
  | [], _ => none
  | p :: rest, k => if p.1 = k then some p.2 else lookup rest k

/-- Replace the value at key `k` (all entries carrying `k`) by `f` applied to
it, leaving other entries alone.  Total helper used by `upsert`/`modifyKey`. -/
def mapUpdate {κ β : Type} [DecidableEq κ] (m : List (κ × β)) (k : κ) (f : β → β) :
    List (κ × β) :=
  m.map fun p => if p.1 = k then (k, f p.2) else p

/-- Python dict assignment `d[k] = v`: replace in place if the key exists,
append otherwise. -/
def upsert {κ β : Type} [DecidableEq κ] (m : List (κ × β)) (k : κ) (v : β) :
    List (κ × β) :=
  if k ∈ keysOf m then mapUpdate m k (fun _ => v) else m ++ [(k, v)]

/-- Python `d[k].mutate(...)` on a possibly-missing key: `none` models the
`KeyError` Python raises when `k` is not a key of `d`. -/
def modifyKey {κ β : Type} [DecidableEq κ] (m : List (κ × β)) (k : κ) (f : β → β) :
    Option (List (κ × β)) :=
  if k ∈ keysOf m then some (mapUpdate m k f) else none

/-- Python `set.add`: append if absent, no-op if present. -/
def insertSet {α : Type} [DecidableEq α] (l : List α) (x : α) : List α :=
  if x ∈ l then l else l ++ [x]

/-! ## Data model

One record type per collection of the script (lines 264-349 of
`quran_scrapper.py`).  Field names follow the script's dict keys, except that
the key `'section'` is rendered `sectionId` (`section` is a Lean keyword);
the misspelt key `'aranic_unicode'` of chapter records is kept verbatim. -/

/-- One verse observation, carrying exactly the values the script reads from
the DOM for one verse (lines 280-289 plus the chapter metadata getters). -/
structure Obs where
  verse_number : Nat
  chapter_number : Nat
  chapter_name : String
  chapter_arabic_unicode : String
  section_number : Nat
  explanation_text : String
  explanation_name : String
  arabic_unicodes : List String
  deriving DecidableEq, Repr

/-- One iteration of the outer page loop: the page number read from the page
list entry, and the ordered verse observations of that page. -/
structure PageObs where
  page_number : Nat
  verses : List Obs
  deriving DecidableEq, Repr

/-- A record of the `verses` dict (lines 303-312). -/
structure Verse where
  id : String
  number : Nat
  arabic_unicodes : List String
  explanations : List String
  page : Nat
  sectionId : Nat
  chapter : Nat
  deriving DecidableEq, Repr

/-- A record of the `explanations` dict (lines 291-301). -/
structure Explanation where
  id : String
  text : String
  name : String
  language : String
  verse : String
  page : Nat
  sectionId : Nat
  chapter : Nat
  deriving DecidableEq, Repr

/-- A record of the `chapters` dict (lines 316-326); `sections` is a Python
set, modelled as a duplicate-free insertion list. -/
structure Chapter where
  id : Nat
  number : Nat
  name : String
  aranic_unicode : String
  basmalah : Bool
  verses : List String
  pages : List Nat
  sections : List Nat
  deriving DecidableEq, Repr

/-- A record of the `pages` dict (lines 264-271); `chapters` and `sections`
are Python sets, modelled as duplicate-free insertion lists. -/
structure Page where
  id : Nat
  number : Nat
  verses : List String
  chapters : List Nat
  sections : List Nat
  deriving DecidableEq, Repr

/-- A record of the `sections` dict (lines 331-337); `chapters` is a Python
set, modelled as a duplicate-free insertion list. -/
structure Section where
  id : Nat
  verses : List String
  pages : List Nat
  chapters : List Nat
  deriving DecidableEq, Repr

/-- The mutable module state of the script: the five collections
(lines 230-234) plus the two current-context pointers (lines 254-255). -/
structure AggState where
  verses : List (String × Verse)
  pages : List (Nat × Page)
  chapters : List (Nat × Chapter)
  sections : List (Nat × Section)
  explanations : List (String × Explanation)
  current_chapter : Nat
  current_section : Nat
  deriving DecidableEq, Repr

/-- Initial state: all collections empty, both pointers at the sentinel `0`
(lines 230-234, 254-255). -/
def initState : AggState :=
  { verses := [], pages := [], chapters := [], sections := [],
    explanations := [], current_chapter := 0, current_section := 0 }

/-- `NO_BASMALA = (1, 9)` (line 57). -/
def NO_BASMALA : List Nat := [1, 9]

/-- `verse_id = str(chapter_number) + ':' + str(verse_number)` (line 286). -/
def verse_id (chapter_number verse_number : Nat) : String :=
  toString chapter_number ++ ":" ++ toString verse_number

/-- The verse id derived from an observation. -/
def vidOf (o : Obs) : String :=
  verse_id o.chapter_number o.verse_number

/-! ## The aggregation loop -/

/-- The seven context mutations of lines 341-349, in source order, on the
state left by the record insertions and the change-detection blocks;
`none` models the `KeyError` raised by the first missing-key subscript. -/
def ingestTail (page_id chapter_id section_id : Nat) (vid : String)
    (s4 : AggState) : Option AggState := do
  let chapters1 ← modifyKey s4.chapters chapter_id
    fun c => { c with sections := insertSet c.sections section_id }
  let pages1 ← modifyKey s4.pages page_id
    fun p => { p with sections := insertSet p.sections section_id }
  let sections1 ← modifyKey s4.sections section_id
    fun x => { x with chapters := insertSet x.chapters chapter_id }
  let pages2 ← modifyKey pages1 page_id
    fun p => { p with chapters := insertSet p.chapters chapter_id }
  let chapters2 ← modifyKey chapters1 chapter_id
    fun c => { c with verses := c.verses ++ [vid] }
  let sections2 ← modifyKey sections1 section_id
    fun x => { x with verses := x.verses ++ [vid] }
  let pages3 ← modifyKey pages2 page_id
    fun p => { p with verses := p.verses ++ [vid] }
  some { s4 with chapters := chapters2, sections := sections2, pages := pages3 }

/-- The body of the inner verse loop (lines 277-351), for one observation on
the page `page_id`.  The result is `none` exactly when one of the dict
subscripts of lines 341-349 would raise `KeyError` in Python; the creation
steps and the order of the seven mutations follow the source line by line. -/
def ingestVerse (page_id : Nat) (s : AggState) (o : Obs) : Option AggState :=
  let verse_number := o.verse_number
  let chapter_number := o.chapter_number
  let section_number := o.section_number
  let vid := verse_id chapter_number verse_number
  let explanation_id := vid
  let chapter_id := chapter_number
  let section_id := section_number
  let explanationRec : Explanation :=
    { id := explanation_id, text := o.explanation_text, name := o.explanation_name,
      language := "AR", verse := vid, page := page_id,
      sectionId := section_id, chapter := chapter_id }
  let verseRec : Verse :=
    { id := vid, number := verse_number, arabic_unicodes := o.arabic_unicodes,
      explanations := [explanation_id], page := page_id,
      sectionId := section_id, chapter := chapter_id }
  let chapterRec : Chapter :=
    { id := chapter_id, number := chapter_number, name := o.chapter_name,
      aranic_unicode := o.chapter_arabic_unicode,
      basmalah := !(NO_BASMALA.contains chapter_id),
      verses := [], pages := [], sections := [] }
  let sectionRec : Section :=
    { id := section_id, verses := [], pages := [], chapters := [] }
  let s1 : AggState :=
    { s with explanations := upsert s.explanations explanation_id explanationRec }
  let s2 : AggState := { s1 with verses := upsert s1.verses vid verseRec }
  let s3 : AggState :=
    if chapter_id ≠ s2.current_chapter then
      { s2 with current_chapter := chapter_id,
                chapters := upsert s2.chapters chapter_id chapterRec }
    else s2
  let s4 : AggState :=
    if section_id ≠ s3.current_section then
      { s3 with current_section := section_id,
                sections := upsert s3.sections section_id sectionRec }
    else s3
  ingestTail page_id chapter_id section_id vid s4

/-- The per-verse update the script applies to the current chapter record
(lines 341 and 347): add the section id to the section set, then append the
verse id. -/
def chapterUpd (section_id : Nat) (vid : String) (c : Chapter) : Chapter :=
  { c with sections := insertSet c.sections section_id, verses := c.verses ++ [vid] }

/-- The per-verse update applied to the current section record
(lines 344 and 348). -/
def sectionUpd (chapter_id : Nat) (vid : String) (x : Section) : Section :=
  { x with chapters := insertSet x.chapters chapter_id, verses := x.verses ++ [vid] }

/-- The per-verse update applied to the current page record
(lines 342, 345 and 349). -/
def pageUpd (chapter_id section_id : Nat) (vid : String) (p : Page) : Page :=
  { p with sections := insertSet p.sections section_id,
           chapters := insertSet p.chapters chapter_id,
           verses := p.verses ++ [vid] }

/-- The explanation record built at lines 291-301. -/
def expRecOf (page_id : Nat) (o : Obs) : Explanation :=
  { id := vidOf o, text := o.explanation_text, name := o.explanation_name,
    language := "AR", verse := vidOf o, page := page_id,
    sectionId := o.section_number, chapter := o.chapter_number }

/-- The verse record built at lines 303-312. -/
def verseRecOf (page_id : Nat) (o : Obs) : Verse :=
  { id := vidOf o, number := o.verse_number, arabic_unicodes := o.arabic_unicodes,
    explanations := [vidOf o], page := page_id,
    sectionId := o.section_number, chapter := o.chapter_number }

/-- The fresh chapter record built at lines 316-326. -/
def chapterRecOf (o : Obs) : Chapter :=
  { id := o.chapter_number, number := o.chapter_number, name := o.chapter_name,
    aranic_unicode := o.chapter_arabic_unicode,
    basmalah := !(NO_BASMALA.contains o.chapter_number),
    verses := [], pages := [], sections := [] }

/-- The fresh section record built at lines 331-337. -/
def sectionRecOf (o : Obs) : Section :=
  { id := o.section_number, verses := [], pages := [], chapters := [] }

/-- The chapters dict after the chapter change-detection block
(lines 314-326). -/
def chaptersAfter (s : AggState) (o : Obs) : List (Nat × Chapter) :=
  if o.chapter_number ≠ s.current_chapter then
    upsert s.chapters o.chapter_number (chapterRecOf o)
  else s.chapters

/-- The sections dict after the section change-detection block
(lines 329-337). -/
def sectionsAfter (s : AggState) (o : Obs) : List (Nat × Section) :=
  if o.section_number ≠ s.current_section then
    upsert s.sections o.section_number (sectionRecOf o)
  else s.sections

/-- The final state of a successful verse-ingestion step, in closed form. -/
def ingestResult (page_id : Nat) (s : AggState) (o : Obs) : AggState :=
  { verses := upsert s.verses (vidOf o) (verseRecOf page_id o),
    pages := mapUpdate s.pages page_id
      (pageUpd o.chapter_number o.section_number (vidOf o)),
    chapters := mapUpdate (chaptersAfter s o) o.chapter_number
      (chapterUpd o.section_number (vidOf o)),
    sections := mapUpdate (sectionsAfter s o) o.section_number
      (sectionUpd o.chapter_number (vidOf o)),
    explanations := upsert s.explanations (vidOf o) (expRecOf page_id o),
    current_chapter := o.chapter_number,
    current_section := o.section_number }

/-- Start of one outer page-loop iteration (lines 262-271): the fresh page
record is installed unconditionally. -/
def startPage (s : AggState) (page_number : Nat) : AggState :=
  let pageRec : Page :=
    { id := page_number, number := page_number,
      verses := [], chapters := [], sections := [] }
  { s with pages := upsert s.pages page_number pageRec }

/-- End of one outer page-loop iteration (lines 353-354): append the page id
to the pages list of the *current* chapter and the *current* section; `none`
models the `KeyError` when either pointer is not a key of its dict. -/
def endPage (s : AggState) (page_id : Nat) : Option AggState := do
  let chapters1 ← modifyKey s.chapters s.current_chapter
    fun c => { c with pages := c.pages ++ [page_id] }
  let sections1 ← modifyKey s.sections s.current_section
    fun x => { x with pages := x.pages ++ [page_id] }
  some { s with chapters := chapters1, sections := sections1 }

/-- The inner verse loop over the observations of one page. -/
def ingestList (page_id : Nat) : AggState → List Obs → Option AggState
  | s, [] => some s
  | s, o :: rest =>
    match ingestVerse page_id s o with
    | none => none
    | some s' => ingestList page_id s' rest

/-- One full outer page-loop iteration. -/
def runPage (s : AggState) (p : PageObs) : Option AggState :=
  match ingestList p.page_number (startPage s p.page_number) p.verses with
  | none => none
  | some s' => endPage s' p.page_number

/-- The outer page loop, from an arbitrary state. -/
def runFrom : AggState → List PageObs → Option AggState
  | s, [] => some s
  | s, p :: rest =>
    match runPage s p with
    | none => none
    | some s' => runFrom s' rest

/-- The whole scraping loop (lines 253-354) on a given observation stream. -/
def run (ps : List PageObs) : Option AggState :=
  runFrom initState ps

/-- The flat observation stream, page by page, verse by verse. -/
def obsStream (ps : List PageObs) : List Obs :=
  ps.foldr (fun p acc => p.verses ++ acc) []


/-! ## Serialization model (the `finally` block, lines 357-369)

The script's `finally` block writes each collection with `json.dump`.
Python's `json` encoder accepts `str`, `int` and `bool` scalars, and lists
of them, but raises `TypeError` on a `set`.  The record values of this
script are flat — every field is a scalar, a list of scalars, or a set of
scalars — so serializability is modelled at exactly that shape. -/

/-- A scalar Python value occurring in the script's records. -/
inductive PyScalar where
  | pyInt : Int → PyScalar
  | pyStr : String → PyScalar
  | pyBool : Bool → PyScalar
  deriving DecidableEq, Repr

/-- A field value of one of the script's records: a scalar, a list of
scalars, or a set of scalars. -/
inductive PyField where
  | scalar : PyScalar → PyField
  | pyList : List PyScalar → PyField
  | pySet : List PyScalar → PyField
  deriving DecidableEq, Repr

/-- `json.dump` serializes scalars and lists, and raises `TypeError` on a
`set`. -/
def fieldSerializable : PyField → Bool
  | .scalar _ => true
  | .pyList _ => true
  | .pySet _ => false

/-- A record (Python dict with string keys) is serializable when all its
field values are. -/
def objSerializable (o : List (String × PyField)) : Bool :=
  o.all fun f => fieldSerializable f.2

/-- A collection (dict of records keyed by `int` or `str`, both accepted as
JSON keys) is serializable when all its records are. -/
def dictSerializable {κ : Type} (d : List (κ × List (String × PyField))) : Bool :=
  d.all fun e => objSerializable e.2

/-- The Python value of a verse record: all fields scalars or lists. -/
def versePy (v : Verse) : List (String × PyField) :=
  [("id", .scalar (.pyStr v.id)),
   ("number", .scalar (.pyInt v.number)),
   ("arabic_unicodes", .pyList (v.arabic_unicodes.map PyScalar.pyStr)),
   ("explanations", .pyList (v.explanations.map PyScalar.pyStr)),
   ("page", .scalar (.pyInt v.page)),
   ("section", .scalar (.pyInt v.sectionId)),
   ("chapter", .scalar (.pyInt v.chapter))]

/-- The Python value of an explanation record: all fields scalars. -/
def explanationPy (e : Explanation) : List (String × PyField) :=
  [("id", .scalar (.pyStr e.id)),
   ("text", .scalar (.pyStr e.text)),
   ("name", .scalar (.pyStr e.name)),
   ("language", .scalar (.pyStr e.language)),
   ("verse", .scalar (.pyStr e.verse)),
   ("page", .scalar (.pyInt e.page)),
   ("section", .scalar (.pyInt e.sectionId)),
   ("chapter", .scalar (.pyInt e.chapter))]

/-- The Python value of a chapter record: the `sections` field is a set
(line 325). -/
def chapterPy (c : Chapter) : List (String × PyField) :=
  [("id", .scalar (.pyInt c.id)),
   ("number", .scalar (.pyInt c.number)),
   ("name", .scalar (.pyStr c.name)),
   ("aranic_unicode", .scalar (.pyStr c.aranic_unicode)),
   ("basmalah", .scalar (.pyBool c.basmalah)),
   ("verses", .pyList (c.verses.map PyScalar.pyStr)),
   ("pages", .pyList (c.pages.map fun n => PyScalar.pyInt n)),
   ("sections", .pySet (c.sections.map fun n => PyScalar.pyInt n))]

/-- The Python value of a page record: the `chapters` and `sections` fields
are sets (lines 269-270). -/
def pagePy (p : Page) : List (String × PyField) :=
  [("id", .scalar (.pyInt p.id)),
   ("number", .scalar (.pyInt p.number)),
   ("verses", .pyList (p.verses.map PyScalar.pyStr)),
   ("chapters", .pySet (p.chapters.map fun n => PyScalar.pyInt n)),
   ("sections", .pySet (p.sections.map fun n => PyScalar.pyInt n))]

/-- The Python value of a section record: the `chapters` field is a set
(line 336). -/
def sectionPy (x : Section) : List (String × PyField) :=
  [("id", .scalar (.pyInt x.id)),
   ("verses", .pyList (x.verses.map PyScalar.pyStr)),
   ("pages", .pyList (x.pages.map fun n => PyScalar.pyInt n)),
   ("chapters", .pySet (x.chapters.map fun n => PyScalar.pyInt n))]

/-- The static `languages` table (lines 236-245). -/
def languagesPy : List (String × List (String × PyField)) :=
  [("AR", [("id", .scalar (.pyStr "AR")), ("name", .scalar (.pyStr "Arabic"))]),
   ("EN", [("id", .scalar (.pyStr "EN")), ("name", .scalar (.pyStr "English"))])]

/-- One `json.dump` call: on success the file is written and recorded, on a
non-serializable value the `TypeError` aborts with the failing collection's
name (and the remaining files are not written). -/
def dumpStep (nm : String) (ok : Bool) (acc : List String) :
    Except String (List String) :=
  if ok then Except.ok (acc ++ [nm]) else Except.error nm

/-- The `finally` block (lines 357-369): serialize the six collections in
source order; the result is the list of files written, or the name of the
collection whose `json.dump` raised. -/
def finalize (s : AggState) : Except String (List String) := do
  let a1 ← dumpStep "languages" (dictSerializable languagesPy) []
  let a2 ← dumpStep "verses"
    (dictSerializable (s.verses.map fun e => (e.1, versePy e.2))) a1
  let a3 ← dumpStep "pages"
    (dictSerializable (s.pages.map fun e => (e.1, pagePy e.2))) a2
  let a4 ← dumpStep "chapters"
    (dictSerializable (s.chapters.map fun e => (e.1, chapterPy e.2))) a3
  let a5 ← dumpStep "sections"
    (dictSerializable (s.sections.map fun e => (e.1, sectionPy e.2))) a4
  let a6 ← dumpStep "explanations"
    (dictSerializable (s.explanations.map fun e => (e.1, explanationPy e.2))) a5
  Except.ok a6

/-! ## Stream preconditions and state invariants -/

/-- No re-entry, relative to a current pointer and the ids already seen: the
id sequence may repeat its current value, but an id that differs from the
current one must be brand new.  Started at the sentinel pointer `0` with no
seen ids, this says each distinct id occupies one contiguous run of the
sequence (and `0` may appear only in a leading run). -/
def noReentryFrom : Nat → List Nat → List Nat → Bool
  | _, _, [] => true
  | cur, seen, c :: rest =>
    if c = cur then noReentryFrom cur seen rest
    else if c ∈ seen then false
    else noReentryFrom c (seen ++ [c]) rest

/-- The chapter ids of a flat observation stream. -/
def chapterIds (l : List Obs) : List Nat :=
  l.map Obs.chapter_number

/-- The section ids of a flat observation stream. -/
def sectionIds (l : List Obs) : List Nat :=
  l.map Obs.section_number

/-- The verse ids of a flat observation stream. -/
def verseIds (l : List Obs) : List String :=
  l.map vidOf

/-- Cross-reference invariant (claim C3): every verse record's page, chapter
and section ids resolve to records whose verse lists contain the verse id
exactly once. -/
def CrossRefInv (s : AggState) : Prop :=
  ∀ k v, lookup s.verses k = some v →
    ((lookup s.pages v.page).map fun pg => pg.verses.count k) = some 1 ∧
    ((lookup s.chapters v.chapter).map fun c => c.verses.count k) = some 1 ∧
    ((lookup s.sections v.sectionId).map fun x => x.verses.count k) = some 1

/-- Support invariant: every verse id listed in any page, chapter or section
record is a key of the verses dict. -/
def ListedVersesExist (s : AggState) : Prop :=
  (∀ e ∈ s.pages, ∀ v ∈ e.2.verses, v ∈ keysOf s.verses) ∧
  (∀ e ∈ s.chapters, ∀ v ∈ e.2.verses, v ∈ keysOf s.verses) ∧
  (∀ e ∈ s.sections, ∀ v ∈ e.2.verses, v ∈ keysOf s.verses)

/-- Page-consistency invariant (claim C5): each page record's verse list
points back to it, and its chapter and section sets are exactly the chapter
and section ids of the verses in its list. -/
def PageSetsInv (s : AggState) : Prop :=
  ∀ e ∈ s.pages,
    (∀ v ∈ e.2.verses, ∃ r, lookup s.verses v = some r ∧ r.page = e.1) ∧
    (∀ c, c ∈ e.2.chapters ↔ ∃ v ∈ e.2.verses, ∃ r, lookup s.verses v = some r ∧ r.chapter = c) ∧
    (∀ x, x ∈ e.2.sections ↔ ∃ v ∈ e.2.verses, ∃ r, lookup s.verses v = some r ∧ r.sectionId = x)

/-- The chapter ids of the verses listed in a page record, resolved through
the verses dict. -/
def pageChapterIdsOf (s : AggState) (pr : Page) : List Nat :=
  pr.verses.filterMap fun v => (lookup s.verses v).map Verse.chapter

/-- The section ids of the verses listed in a page record, resolved through
the verses dict. -/
def pageSectionIdsOf (s : AggState) (pr : Page) : List Nat :=
  pr.verses.filterMap fun v => (lookup s.verses v).map Verse.sectionId

/-- All set-typed fields (modelled as insertion lists) are duplicate-free
(claim C6). -/
def SetsNodup (s : AggState) : Prop :=
  (∀ e ∈ s.chapters, e.2.sections.Nodup) ∧
  (∀ e ∈ s.sections, e.2.chapters.Nodup) ∧
  (∀ e ∈ s.pages, e.2.chapters.Nodup ∧ e.2.sections.Nodup)

/-- Chapter-record shape invariant (claim C8): the record's id is its key
and the basmala flag is the `NO_BASMALA` test of line 321. -/
def BasmalahInv (s : AggState) : Prop :=
  ∀ e ∈ s.chapters, e.2.id = e.1 ∧ e.2.basmalah = !(NO_BASMALA.contains e.1)

/-- Pointer invariant (claim C9): each current-context pointer is the
sentinel `0` or a present key of its dict. -/
def PointersInv (s : AggState) : Prop :=
  (s.current_chapter = 0 ∨ s.current_chapter ∈ keysOf s.chapters) ∧
  (s.current_section = 0 ∨ s.current_section ∈ keysOf s.sections)

/-! ## Concrete observation streams used by the scenario claims -/

/-- A synthetic observation with the given chapter, verse and section
numbers (the text fields are irrelevant to the bookkeeping). -/
def mkObs (chapter verse sec : Nat) : Obs :=
  { verse_number := verse, chapter_number := chapter,
    chapter_name := "Chapter " ++ toString chapter,
    chapter_arabic_unicode := "CH" ++ toString chapter,
    section_number := sec,
    explanation_text := "tafsir of " ++ verse_id chapter verse,
    explanation_name := "tafsir title",
    arabic_unicodes := ["word1", "word2"] }

/-- The end-to-end scenario of claim C1: one page with observations
(chapter 1, verse 1, section 1), (1, 2, 1), (2, 1, 1). -/
def endToEndInput : List PageObs :=
  [{ page_number := 1, verses := [mkObs 1 1 1, mkObs 1 2 1, mkObs 2 1 1] }]

/-- A stream that leaves chapter 1 and comes back to it: chapters 1, 2, 1 on
one page. -/
def reentryInput : List PageObs :=
  [{ page_number := 1, verses := [mkObs 1 1 1, mkObs 2 1 1, mkObs 1 2 1] }]

/-- Two observations of the same verse (chapter 1, verse 1) in a row. -/
def duplicateInput : List PageObs :=
  [{ page_number := 1, verses := [mkObs 1 1 1, mkObs 1 1 1] }]

/-- The same verse observed twice with two different section numbers. -/
def sectionDupInput : List PageObs :=
  [{ page_number := 1, verses := [mkObs 1 1 2, mkObs 1 1 5] }]

/-- The five planned observations of the cancellation scenario of claim C7:
three verses on page 1, two on page 2. -/
def plannedInput : List PageObs :=
  [{ page_number := 1, verses := [mkObs 1 1 1, mkObs 1 2 1, mkObs 2 1 1] },
   { page_number := 2, verses := [mkObs 2 2 1, mkObs 2 3 1] }]

/-- The state accumulated when a cancellation signal arrives after exactly
two of the five planned observations: page 1 was opened and its first two
verses ingested; the interrupt is swallowed by the `except` clause
(lines 355-356) and the state is handed as-is to the `finally` block. -/
def cancelAfterTwo : Option AggState :=
  ingestList 1 (startPage initState 1) [mkObs 1 1 1, mkObs 1 2 1]

/-! ## Lemmas about the dict and set operations -/

section MapLemmas

variable {κ β : Type} [DecidableEq κ]

theorem keysOf_mapUpdate (m : List (κ × β)) (k : κ) (f : β → β) :
    keysOf (mapUpdate m k f) = keysOf m := by
  induction m with
  | nil => rfl
  | cons p rest ih =>
    simp only [mapUpdate, keysOf, List.map_cons] at *
    by_cases h : p.1 = k
    · simp [h, ih]
    · simp [h, ih]

theorem lookup_eq_none_iff (m : List (κ × β)) (k : κ) :
    lookup m k = none ↔ k ∉ keysOf m := by
  induction m with
  | nil => simp [lookup, keysOf]
  | cons p rest ih =>
    by_cases h : p.1 = k
    · simp [lookup, keysOf, h]
    · simp [lookup, keysOf, h, ih, Ne.symm h]

theorem lookup_isSome_of_mem_keys {m : List (κ × β)} {k : κ} (h : k ∈ keysOf m) :
    ∃ v, lookup m k = some v := by
  rcases ho : lookup m k with _ | v
  · exact absurd ((lookup_eq_none_iff m k).mp ho) (by simpa using h)
  · exact ⟨v, rfl⟩

theorem mem_keys_of_lookup_eq_some {m : List (κ × β)} {k : κ} {v : β}
    (h : lookup m k = some v) : k ∈ keysOf m := by
  by_contra hk
  rw [(lookup_eq_none_iff m k).mpr hk] at h
  exact Option.noConfusion h

theorem lookup_mapUpdate_self {m : List (κ × β)} {k : κ} {v : β} (f : β → β)
    (h : lookup m k = some v) :
    lookup (mapUpdate m k f) k = some (f v) := by
  induction m with
  | nil => exact Option.noConfusion h
  | cons p rest ih =>
    by_cases hp : p.1 = k
    · simp [lookup, hp] at h
      simp [mapUpdate, lookup, hp, h]
    · simp [lookup, hp] at h
      simpa [mapUpdate, lookup, hp] using ih h

theorem lookup_mapUpdate_ne {m : List (κ × β)} {k k' : κ} (f : β → β)
    (h : k' ≠ k) :
    lookup (mapUpdate m k f) k' = lookup m k' := by
  induction m with
  | nil => rfl
  | cons p rest ih =>
    by_cases hp : p.1 = k
    · simp [mapUpdate, lookup, hp, Ne.symm h] at *
      exact ih
    · by_cases hq : p.1 = k'
      · simp [mapUpdate, lookup, hp, hq, h]
      · simp [mapUpdate, lookup, hp, hq] at *
        exact ih

theorem lookup_upsert_self (m : List (κ × β)) (k : κ) (v : β) :
    lookup (upsert m k v) k = some v := by
  unfold upsert
  by_cases h : k ∈ keysOf m
  · rcases lookup_isSome_of_mem_keys h with ⟨w, hw⟩
    simp [h, lookup_mapUpdate_self _ hw]
  · simp only [h, if_false]
    induction m with
    | nil => simp [lookup]
    | cons p rest ih =>
      have hp : p.1 ≠ k := by
        intro hpk
        exact h (by simp [keysOf, hpk])
      have hrest : k ∉ keysOf rest := by
        intro hk
        exact h (by simp [keysOf] at *; exact Or.inr hk)
      simpa [lookup, hp] using ih hrest

theorem lookup_upsert_ne (m : List (κ × β)) (k k' : κ) (v : β) (h : k' ≠ k) :
    lookup (upsert m k v) k' = lookup m k' := by
  unfold upsert
  by_cases hm : k ∈ keysOf m
  · simp [hm, lookup_mapUpdate_ne _ h]
  · simp only [hm, if_false]
    induction m with
    | nil => simp [lookup, Ne.symm h]
    | cons p rest ih =>
      by_cases hp : p.1 = k'
      · simp [lookup, hp]
      · have hrest : k ∉ keysOf rest := by
          intro hk
          exact hm (by simp [keysOf] at *; exact Or.inr hk)
        simp [lookup, hp] at *
        exact ih hrest

theorem keysOf_upsert_mem (m : List (κ × β)) (k : κ) (v : β) (h : k ∈ keysOf m) :
    keysOf (upsert m k v) = keysOf m := by
  simp [upsert, h, keysOf_mapUpdate]

theorem keysOf_upsert_not_mem (m : List (κ × β)) (k : κ) (v : β) (h : k ∉ keysOf m) :
    keysOf (upsert m k v) = keysOf m ++ [k] := by
  unfold upsert
  rw [if_neg h]
  simp [keysOf]

theorem modifyKey_eq_some_iff (m : List (κ × β)) (k : κ) (f : β → β) :
    (∃ m', modifyKey m k f = some m') ↔ k ∈ keysOf m := by
  unfold modifyKey
  by_cases h : k ∈ keysOf m <;> simp [h]

theorem modifyKey_eq_some (m : List (κ × β)) (k : κ) (f : β → β) (h : k ∈ keysOf m) :
    modifyKey m k f = some (mapUpdate m k f) := by
  simp [modifyKey, h]

theorem modifyKey_eq_none (m : List (κ × β)) (k : κ) (f : β → β) (h : k ∉ keysOf m) :
    modifyKey m k f = none := by
  simp [modifyKey, h]

theorem mapUpdate_mapUpdate (m : List (κ × β)) (k : κ) (f g : β → β) :
    mapUpdate (mapUpdate m k f) k g = mapUpdate m k (fun v => g (f v)) := by
  induction m with
  | nil => rfl
  | cons p rest ih =>
    by_cases hp : p.1 = k
    · simp [mapUpdate, hp] at *
      exact ih
    · simp [mapUpdate, hp] at *
      exact ih

theorem mem_mapUpdate {m : List (κ × β)} {k : κ} {f : β → β} {p : κ × β}
    (h : p ∈ mapUpdate m k f) :
    p ∈ m ∨ ∃ v, (k, v) ∈ m ∧ p = (k, f v) := by
  unfold mapUpdate at h
  rcases List.mem_map.mp h with ⟨q, hq, hqe⟩
  by_cases hk : q.1 = k
  · right
    refine ⟨q.2, ?_, ?_⟩
    · have : q = (k, q.2) := by
        cases q
        simp at hk
        simp [hk]
      rwa [this] at hq
    · simp [hk] at hqe
      exact hqe.symm
  · left
    simp [hk] at hqe
    rwa [hqe] at hq

theorem mem_upsert {m : List (κ × β)} {k : κ} {v : β} {p : κ × β}
    (h : p ∈ upsert m k v) :
    p ∈ m ∨ p = (k, v) := by
  unfold upsert at h
  by_cases hm : k ∈ keysOf m
  · simp only [hm, if_true] at h
    rcases mem_mapUpdate h with h' | ⟨w, _, rfl⟩
    · exact Or.inl h'
    · exact Or.inr rfl
  · simp only [hm, if_false] at h
    rcases List.mem_append.mp h with h' | h'
    · exact Or.inl h'
    · simp at h'
      exact Or.inr h'

theorem mem_insertSet {α : Type} [DecidableEq α] {l : List α} {x y : α} :
    y ∈ insertSet l x ↔ y ∈ l ∨ y = x := by
  unfold insertSet
  by_cases h : x ∈ l
  · simp only [h, if_true]
    constructor
    · exact Or.inl
    · rintro (hy | rfl)
      · exact hy
      · exact h
  · simp [h]

theorem nodup_insertSet {α : Type} [DecidableEq α] {l : List α} (x : α)
    (h : l.Nodup) : (insertSet l x).Nodup := by
  unfold insertSet
  by_cases hx : x ∈ l
  · simpa [hx] using h
  · simp [hx, List.nodup_append, h]

theorem insertSet_of_mem {α : Type} [DecidableEq α] {l : List α} {x : α}
    (h : x ∈ l) : insertSet l x = l := by
  simp [insertSet, h]

end MapLemmas

/-! ## Normal forms of the loop-body steps -/

/-- One verse-ingestion step, reorganized: the state handed to the seven
mutations has the new verse and explanation inserted, the chapter/section
dicts of the change-detection blocks, and both pointers at the observation's
ids (the pointer is unchanged precisely when it already equals the id). -/
theorem ingestVerse_as_tail (page_id : Nat) (s : AggState) (o : Obs) :
    ingestVerse page_id s o =
      ingestTail page_id o.chapter_number o.section_number (vidOf o)
        { verses := upsert s.verses (vidOf o) (verseRecOf page_id o),
          pages := s.pages,
          chapters := chaptersAfter s o,
          sections := sectionsAfter s o,
          explanations := upsert s.explanations (vidOf o) (expRecOf page_id o),
          current_chapter := o.chapter_number,
          current_section := o.section_number } := by
  unfold ingestVerse chaptersAfter sectionsAfter expRecOf verseRecOf
    chapterRecOf sectionRecOf vidOf
  by_cases hch : o.chapter_number = s.current_chapter <;>
    by_cases hsec : o.section_number = s.current_section <;>
      simp [hch, hsec]

/-- Normal form of the seven mutations: they succeed exactly when the
chapter id, section id and page id are keys of their dicts, and then each of
the three context records receives its per-verse update. -/
theorem ingestTail_eq (page_id chapter_id section_id : Nat) (vid : String)
    (t : AggState) :
    ingestTail page_id chapter_id section_id vid t =
      if chapter_id ∈ keysOf t.chapters ∧ section_id ∈ keysOf t.sections
          ∧ page_id ∈ keysOf t.pages then
        some { t with
               chapters := mapUpdate t.chapters chapter_id
                 (chapterUpd section_id vid),
               sections := mapUpdate t.sections section_id
                 (sectionUpd chapter_id vid),
               pages := mapUpdate t.pages page_id
                 (pageUpd chapter_id section_id vid) }
      else none := by
  unfold ingestTail chapterUpd sectionUpd pageUpd
  simp only [modifyKey, keysOf_mapUpdate]
  by_cases hc : chapter_id ∈ keysOf t.chapters <;>
    by_cases hs : section_id ∈ keysOf t.sections <;>
      by_cases hp : page_id ∈ keysOf t.pages <;>
        simp [hc, hs, hp, mapUpdate_mapUpdate, keysOf_mapUpdate]

/-- Normal form of one verse-ingestion step: it succeeds exactly when, after
the change-detection blocks, the chapter id, the section id and the page id
are keys of their dicts, and then the result is `ingestResult`. -/
theorem ingestVerse_eq (page_id : Nat) (s : AggState) (o : Obs) :
    ingestVerse page_id s o =
      if o.chapter_number ∈ keysOf (chaptersAfter s o)
          ∧ o.section_number ∈ keysOf (sectionsAfter s o)
          ∧ page_id ∈ keysOf s.pages then
        some (ingestResult page_id s o)
      else none := by
  rw [ingestVerse_as_tail, ingestTail_eq]
  rfl

/-- Destructing a successful verse-ingestion step. -/
theorem ingestVerse_some {page_id : Nat} {s : AggState} {o : Obs} {s' : AggState}
    (h : ingestVerse page_id s o = some s') :
    o.chapter_number ∈ keysOf (chaptersAfter s o)
      ∧ o.section_number ∈ keysOf (sectionsAfter s o)
      ∧ page_id ∈ keysOf s.pages
      ∧ s' = ingestResult page_id s o := by
  rw [ingestVerse_eq] at h
  by_cases hcond : o.chapter_number ∈ keysOf (chaptersAfter s o)
      ∧ o.section_number ∈ keysOf (sectionsAfter s o)
      ∧ page_id ∈ keysOf s.pages
  · rw [if_pos hcond] at h
    exact ⟨hcond.1, hcond.2.1, hcond.2.2, (Option.some_inj.mp h).symm⟩
  · rw [if_neg hcond] at h
    exact Option.noConfusion h

/-- A verse-ingestion step succeeds when the three keys are present. -/
theorem ingestVerse_succeeds {page_id : Nat} {s : AggState} {o : Obs}
    (hc : o.chapter_number ∈ keysOf (chaptersAfter s o))
    (hs : o.section_number ∈ keysOf (sectionsAfter s o))
    (hp : page_id ∈ keysOf s.pages) :
    ingestVerse page_id s o = some (ingestResult page_id s o) := by
  rw [ingestVerse_eq, if_pos ⟨hc, hs, hp⟩]

/-- Normal form of the end-of-page appends (lines 353-354). -/
theorem endPage_eq (s : AggState) (page_id : Nat) :
    endPage s page_id =
      if s.current_chapter ∈ keysOf s.chapters
          ∧ s.current_section ∈ keysOf s.sections then
        some { s with
               chapters := mapUpdate s.chapters s.current_chapter
                 (fun c => { c with pages := c.pages ++ [page_id] }),
               sections := mapUpdate s.sections s.current_section
                 (fun x => { x with pages := x.pages ++ [page_id] }) }
      else none := by
  unfold endPage
  simp only [modifyKey]
  by_cases hc : s.current_chapter ∈ keysOf s.chapters <;>
    by_cases hs : s.current_section ∈ keysOf s.sections <;>
      simp [hc, hs]

/-! ## Further dict/set lemmas -/

theorem lookup_mapUpdate_map {κ β : Type} [DecidableEq κ]
    (m : List (κ × β)) (k : κ) (f : β → β) :
    lookup (mapUpdate m k f) k = (lookup m k).map f := by
  rcases h : lookup m k with _ | v
  · have h2 : lookup (mapUpdate m k f) k = none := by
      rw [lookup_eq_none_iff, keysOf_mapUpdate]
      exact (lookup_eq_none_iff m k).mp h
    rw [h2]
    rfl
  · rw [lookup_mapUpdate_self f h]
    rfl

theorem insertSet_insertSet {α : Type} [DecidableEq α] (l : List α) (x : α) :
    insertSet (insertSet l x) x = insertSet l x :=
  insertSet_of_mem (mem_insertSet.mpr (Or.inr rfl))

/-! ## C2: change-detection overwrites unconditionally -/

/-- C2 (amended): the two change-detection blocks act independently.
Whenever an observation's chapter id differs from the current-chapter
pointer, a fresh chapter record is installed unconditionally — any existing
record with that id is overwritten and reset, there being no presence check
at lines 314-326 — and after the per-verse updates it holds exactly this
verse; and likewise for the section record whenever the section id differs
from the current-section pointer (lines 329-337), regardless of whether the
other id changed. -/
theorem c2_change_overwrites (page_id : Nat) (s : AggState) (o : Obs)
    (s' : AggState)
    (h : ingestVerse page_id s o = some s') :
    (o.chapter_number ≠ s.current_chapter →
      lookup s'.chapters o.chapter_number = some
        { id := o.chapter_number, number := o.chapter_number,
          name := o.chapter_name, aranic_unicode := o.chapter_arabic_unicode,
          basmalah := !(NO_BASMALA.contains o.chapter_number),
          verses := [vidOf o], pages := [], sections := [o.section_number] }) ∧
    (o.section_number ≠ s.current_section →
      lookup s'.sections o.section_number = some
        { id := o.section_number, verses := [vidOf o], pages := [],
          chapters := [o.chapter_number] }) := by
  obtain ⟨hc, hs, hp, rfl⟩ := ingestVerse_some h
  constructor
  · intro hch
    show lookup (mapUpdate (chaptersAfter s o) _ _) _ = _
    unfold chaptersAfter
    rw [if_pos hch, lookup_mapUpdate_map, lookup_upsert_self]
    unfold chapterUpd chapterRecOf
    simp [insertSet]
  · intro hsec
    show lookup (mapUpdate (sectionsAfter s o) _ _) _ = _
    unfold sectionsAfter
    rw [if_pos hsec, lookup_mapUpdate_map, lookup_upsert_self]
    unfold sectionUpd sectionRecOf
    simp [insertSet]

/-- Witness for `c2_change_overwrites`.  First conjunct: the chapter-only
re-entry case — after chapters 1, 2 (section 1 throughout) the third
observation returns to chapter 1 with the section pointer unchanged, and
the existing chapter-1 record is replaced by a fresh one holding only
"1:2".  Second conjunct: a section change at the first observation installs
the fresh section record. -/
theorem c2_change_overwrites_witness :
    lookup ((ingestList 1 (startPage initState 1)
        [mkObs 1 1 1, mkObs 2 1 1, mkObs 1 2 1]).getD initState).chapters 1
      = some
      { id := 1, number := 1, name := "Chapter 1", aranic_unicode := "CH1",
        basmalah := false, verses := ["1:2"], pages := [], sections := [1] } ∧
    lookup ((ingestVerse 1 (startPage initState 1) (mkObs 1 1 1)).getD
      initState).sections 1 = some
      { id := 1, verses := ["1:1"], pages := [], chapters := [1] } := by
  constructor
  · have h := (c2_change_overwrites 1
      ((ingestList 1 (startPage initState 1)
        [mkObs 1 1 1, mkObs 2 1 1]).getD initState)
      (mkObs 1 2 1)
      ((ingestList 1 (startPage initState 1)
        [mkObs 1 1 1, mkObs 2 1 1, mkObs 1 2 1]).getD initState)
      rfl).1 (by decide)
    simpa using h
  · have h := (c2_change_overwrites 1 (startPage initState 1) (mkObs 1 1 1)
      ((ingestVerse 1 (startPage initState 1) (mkObs 1 1 1)).getD initState)
      rfl).2 (by decide)
    simpa using h

/-! ## C6: idempotent set insertion, double list append -/

/-- One ingestion step cannot introduce a duplicate into any set-typed
field. -/
theorem setsNodup_ingestResult (page_id : Nat) (s : AggState) (o : Obs)
    (h : SetsNodup s) : SetsNodup (ingestResult page_id s o) := by
  obtain ⟨hch, hsec, hpg⟩ := h
  have hchA : ∀ e ∈ chaptersAfter s o, e.2.sections.Nodup := by
    intro e he
    unfold chaptersAfter at he
    by_cases hb : o.chapter_number ≠ s.current_chapter
    · rw [if_pos hb] at he
      rcases mem_upsert he with h' | h'
      · exact hch e h'
      · rw [h']
        exact List.nodup_nil
    · rw [if_neg hb] at he
      exact hch e he
  have hseA : ∀ e ∈ sectionsAfter s o, e.2.chapters.Nodup := by
    intro e he
    unfold sectionsAfter at he
    by_cases hb : o.section_number ≠ s.current_section
    · rw [if_pos hb] at he
      rcases mem_upsert he with h' | h'
      · exact hsec e h'
      · rw [h']
        exact List.nodup_nil
    · rw [if_neg hb] at he
      exact hsec e he
  refine ⟨?_, ?_, ?_⟩
  · intro e he
    rcases mem_mapUpdate he with h' | ⟨v, hv, rfl⟩
    · exact hchA e h'
    · exact nodup_insertSet _ (hchA _ hv)
  · intro e he
    rcases mem_mapUpdate he with h' | ⟨v, hv, rfl⟩
    · exact hseA e h'
    · exact nodup_insertSet _ (hseA _ hv)
  · intro e he
    rcases mem_mapUpdate he with h' | ⟨v, hv, rfl⟩
    · exact hpg e h'
    · exact ⟨nodup_insertSet _ (hpg _ hv).1, nodup_insertSet _ (hpg _ hv).2⟩

/-- C6: ingesting two consecutive observations with the same page, chapter
and section ids (and different verse numbers) leaves every set-typed field
duplicate-free; relative to the dicts left by the change-detection of the
first step, the context records receive exactly one set insertion per
related id (the second `.add` is a no-op) and two verse-list appends. -/
theorem c6_same_context_pair (page_id : Nat) (s s1 s2 : AggState)
    (o1 o2 : Obs)
    (h1 : ingestVerse page_id s o1 = some s1)
    (h2 : ingestVerse page_id s1 o2 = some s2)
    (hc : o2.chapter_number = o1.chapter_number)
    (hs : o2.section_number = o1.section_number)
    (hv : o2.verse_number ≠ o1.verse_number)
    (hnodup : SetsNodup s) :
    SetsNodup s2 ∧
    lookup s2.chapters o1.chapter_number =
      (lookup (chaptersAfter s o1) o1.chapter_number).map
        (fun c => { c with sections := insertSet c.sections o1.section_number,
                           verses := c.verses ++ [vidOf o1, vidOf o2] }) ∧
    lookup s2.sections o1.section_number =
      (lookup (sectionsAfter s o1) o1.section_number).map
        (fun x => { x with chapters := insertSet x.chapters o1.chapter_number,
                           verses := x.verses ++ [vidOf o1, vidOf o2] }) ∧
    lookup s2.pages page_id =
      (lookup s.pages page_id).map
        (fun p => { p with sections := insertSet p.sections o1.section_number,
                           chapters := insertSet p.chapters o1.chapter_number,
                           verses := p.verses ++ [vidOf o1, vidOf o2] }) := by
  obtain ⟨hc1, hs1, hp1, rfl⟩ := ingestVerse_some h1
  obtain ⟨hc2, hs2, hp2, rfl⟩ := ingestVerse_some h2
  have hcur : (ingestResult page_id s o1).current_chapter = o1.chapter_number := rfl
  have hsur : (ingestResult page_id s o1).current_section = o1.section_number := rfl
  have hchA : chaptersAfter (ingestResult page_id s o1) o2
      = (ingestResult page_id s o1).chapters := by
    unfold chaptersAfter
    rw [if_neg]
    simp [hcur, hc]
  have hseA : sectionsAfter (ingestResult page_id s o1) o2
      = (ingestResult page_id s o1).sections := by
    unfold sectionsAfter
    rw [if_neg]
    simp [hsur, hs]
  refine ⟨?_, ?_, ?_, ?_⟩
  · exact setsNodup_ingestResult _ _ _ (setsNodup_ingestResult _ _ _ hnodup)
  · show lookup (mapUpdate (chaptersAfter (ingestResult page_id s o1) o2)
      o2.chapter_number (chapterUpd o2.section_number (vidOf o2))) _ = _
    rw [hchA, hc]
    show lookup (mapUpdate (mapUpdate (chaptersAfter s o1) o1.chapter_number
      (chapterUpd o1.section_number (vidOf o1))) o1.chapter_number
      (chapterUpd o2.section_number (vidOf o2))) _ = _
    rw [mapUpdate_mapUpdate, lookup_mapUpdate_map]
    rcases lookup (chaptersAfter s o1) o1.chapter_number with _ | c
    · rfl
    · show some _ = some _
      unfold chapterUpd
      simp [hs, insertSet_insertSet]
  · show lookup (mapUpdate (sectionsAfter (ingestResult page_id s o1) o2)
      o2.section_number (sectionUpd o2.chapter_number (vidOf o2))) _ = _
    rw [hseA, hs]
    show lookup (mapUpdate (mapUpdate (sectionsAfter s o1) o1.section_number
      (sectionUpd o1.chapter_number (vidOf o1))) o1.section_number
      (sectionUpd o2.chapter_number (vidOf o2))) _ = _
    rw [mapUpdate_mapUpdate, lookup_mapUpdate_map]
    rcases lookup (sectionsAfter s o1) o1.section_number with _ | x
    · rfl
    · show some _ = some _
      unfold sectionUpd
      simp [hc, insertSet_insertSet]
  · show lookup (mapUpdate (ingestResult page_id s o1).pages page_id
      (pageUpd o2.chapter_number o2.section_number (vidOf o2))) _ = _
    show lookup (mapUpdate (mapUpdate s.pages page_id
      (pageUpd o1.chapter_number o1.section_number (vidOf o1))) page_id
      (pageUpd o2.chapter_number o2.section_number (vidOf o2))) _ = _
    rw [mapUpdate_mapUpdate, lookup_mapUpdate_map]
    rcases lookup s.pages page_id with _ | p
    · rfl
    · show some _ = some _
      unfold pageUpd
      simp [hc, hs, insertSet_insertSet]

/-- Witness for `c6_same_context_pair`: the first two observations of the
end-to-end stream share page 1, chapter 1 and section 1. -/
theorem c6_same_context_pair_witness :
    SetsNodup ((ingestList 1 (startPage initState 1)
      [mkObs 1 1 1, mkObs 1 2 1]).getD initState) ∧
    lookup ((ingestList 1 (startPage initState 1)
        [mkObs 1 1 1, mkObs 1 2 1]).getD initState).chapters 1 =
      (lookup (chaptersAfter (startPage initState 1) (mkObs 1 1 1)) 1).map
        (fun c => { c with sections := insertSet c.sections 1,
                           verses := c.verses ++ [vidOf (mkObs 1 1 1), vidOf (mkObs 1 2 1)] }) ∧
    lookup ((ingestList 1 (startPage initState 1)
        [mkObs 1 1 1, mkObs 1 2 1]).getD initState).sections 1 =
      (lookup (sectionsAfter (startPage initState 1) (mkObs 1 1 1)) 1).map
        (fun x => { x with chapters := insertSet x.chapters 1,
                           verses := x.verses ++ [vidOf (mkObs 1 1 1), vidOf (mkObs 1 2 1)] }) ∧
    lookup ((ingestList 1 (startPage initState 1)
        [mkObs 1 1 1, mkObs 1 2 1]).getD initState).pages 1 =
      (lookup (startPage initState 1).pages 1).map
        (fun p => { p with sections := insertSet p.sections 1,
                           chapters := insertSet p.chapters 1,
                           verses := p.verses ++ [vidOf (mkObs 1 1 1), vidOf (mkObs 1 2 1)] }) := by
  have h := c6_same_context_pair 1 (startPage initState 1)
    ((ingestVerse 1 (startPage initState 1) (mkObs 1 1 1)).getD initState)
    ((ingestList 1 (startPage initState 1)
      [mkObs 1 1 1, mkObs 1 2 1]).getD initState)
    (mkObs 1 1 1) (mkObs 1 2 1) rfl rfl rfl rfl (by decide)
    (by refine ⟨?_, ?_, ?_⟩ <;> intro e he <;> simp [startPage, initState, upsert, keysOf, mapUpdate] at he <;> simp [he])
  simpa using h

/-! ## Generic preservation of state predicates along the loop -/

theorem lookup_mem {κ β : Type} [DecidableEq κ] {m : List (κ × β)} {k : κ}
    {v : β} (h : lookup m k = some v) : (k, v) ∈ m := by
  induction m with
  | nil => exact Option.noConfusion h
  | cons p rest ih =>
    by_cases hp : p.1 = k
    · simp [lookup, hp] at h
      have hpe : p = (k, v) := by
        cases p
        simp at hp h
        simp [hp, h]
      rw [← hpe]
      exact List.mem_cons_self _ _
    · simp [lookup, hp] at h
      exact List.mem_cons_of_mem _ (ih h)

theorem mem_keysOf_upsert_self {κ β : Type} [DecidableEq κ]
    (m : List (κ × β)) (k : κ) (v : β) : k ∈ keysOf (upsert m k v) := by
  by_cases h : k ∈ keysOf m
  · rw [keysOf_upsert_mem m k v h]
    exact h
  · rw [keysOf_upsert_not_mem m k v h]
    simp

/-- A state predicate preserved by the verse step, the page start and the
page end is preserved by the inner verse loop. -/
theorem ingestList_preserves (P : AggState → Prop)
    (hIngest : ∀ pid s o s', ingestVerse pid s o = some s' → P s → P s') :
    ∀ (l : List Obs) (pid : Nat) (s s' : AggState),
      ingestList pid s l = some s' → P s → P s'
  | [], _, s, s', h, hP => by
    simp [ingestList] at h
    rwa [← h]
  | o :: rest, pid, s, s', h, hP => by
    unfold ingestList at h
    rcases ho : ingestVerse pid s o with _ | s1
    · rw [ho] at h
      exact Option.noConfusion h
    · rw [ho] at h
      exact ingestList_preserves P hIngest rest pid s1 s' h (hIngest pid s o s1 ho hP)

/-- A state predicate preserved by all three step kinds is an invariant of
the whole loop. -/
theorem runFrom_preserves (P : AggState → Prop)
    (hIngest : ∀ pid s o s', ingestVerse pid s o = some s' → P s → P s')
    (hStart : ∀ s pid, P s → P (startPage s pid))
    (hEnd : ∀ s pid s', endPage s pid = some s' → P s → P s') :
    ∀ (ps : List PageObs) (s s' : AggState),
      runFrom s ps = some s' → P s → P s'
  | [], s, s', h, hP => by
    simp [runFrom] at h
    rwa [← h]
  | p :: rest, s, s', h, hP => by
    unfold runFrom at h
    rcases hp : runPage s p with _ | s1
    · rw [hp] at h
      exact Option.noConfusion h
    · rw [hp] at h
      refine runFrom_preserves P hIngest hStart hEnd rest s1 s' h ?_
      unfold runPage at hp
      rcases hl : ingestList p.page_number (startPage s p.page_number) p.verses with _ | s2
      · rw [hl] at hp
        exact Option.noConfusion hp
      · rw [hl] at hp
        exact hEnd s2 p.page_number s1 hp
          (ingestList_preserves P hIngest p.verses p.page_number _ s2 hl
            (hStart s p.page_number hP))

/-! ## C8: the basmala flag -/

theorem basmalahInv_ingest (pid : Nat) (s : AggState) (o : Obs) (s' : AggState)
    (h : ingestVerse pid s o = some s') (hP : BasmalahInv s) : BasmalahInv s' := by
  obtain ⟨-, -, -, rfl⟩ := ingestVerse_some h
  intro e he
  rcases mem_mapUpdate he with h' | ⟨v, hv, rfl⟩
  · unfold chaptersAfter at h'
    by_cases hb : o.chapter_number ≠ s.current_chapter
    · rw [if_pos hb] at h'
      rcases mem_upsert h' with h2 | h2
      · exact hP e h2
      · rw [h2]
        exact ⟨rfl, rfl⟩
    · rw [if_neg hb] at h'
      exact hP e h'
  · have hv' : v.id = o.chapter_number ∧ v.basmalah
        = !(NO_BASMALA.contains o.chapter_number) := by
      unfold chaptersAfter at hv
      by_cases hb : o.chapter_number ≠ s.current_chapter
      · rw [if_pos hb] at hv
        rcases mem_upsert hv with h2 | h2
        · exact hP _ h2
        · rw [Prod.mk.injEq] at h2
          rw [h2.2]
          exact ⟨rfl, rfl⟩
      · rw [if_neg hb] at hv
        exact hP _ hv
    exact hv'

theorem basmalahInv_endPage (s : AggState) (pid : Nat) (s' : AggState)
    (h : endPage s pid = some s') (hP : BasmalahInv s) : BasmalahInv s' := by
  rw [endPage_eq] at h
  by_cases hcond : s.current_chapter ∈ keysOf s.chapters
      ∧ s.current_section ∈ keysOf s.sections
  · rw [if_pos hcond] at h
    obtain rfl := Option.some_inj.mp h.symm
    intro e he
    have he' : e ∈ mapUpdate s.chapters s.current_chapter
        (fun c => { c with pages := c.pages ++ [pid] }) := he
    rcases mem_mapUpdate he' with h' | ⟨v, hv, rfl⟩
    · exact hP e h'
    · obtain ⟨hid, hb⟩ := hP _ hv
      exact ⟨hid, hb⟩
  · rw [if_neg hcond] at h
    exact Option.noConfusion h

/-- C8: in any state reached by a completed run, every chapter record's
basmala flag is `false` iff its id is 1 or 9 (line 321 with
`NO_BASMALA = (1, 9)`). -/
theorem c8_basmalah_flag (ps : List PageObs) (s : AggState)
    (h : run ps = some s) :
    ∀ k c, lookup s.chapters k = some c →
      (c.basmalah = false ↔ (c.id = 1 ∨ c.id = 9)) := by
  have hstart : ∀ (t : AggState) (pid : Nat), BasmalahInv t →
      BasmalahInv (startPage t pid) := by
    intro t pid hP e he
    exact hP e he
  have hinit : BasmalahInv initState := by
    intro e he
    simp [initState] at he
  have hinv : BasmalahInv s :=
    runFrom_preserves BasmalahInv basmalahInv_ingest hstart basmalahInv_endPage
      ps initState s h hinit
  intro k c hc
  obtain ⟨hid, hb⟩ := hinv (k, c) (lookup_mem hc)
  rw [hb, hid]
  have hck : NO_BASMALA.contains k = true ↔ (k = 1 ∨ k = 9) := by
    unfold NO_BASMALA
    simp
  constructor
  · intro hfalse
    rw [← hck]
    rcases hkk : NO_BASMALA.contains k with _ | _
    · rw [hkk] at hfalse
      exact absurd hfalse (by simp)
    · rfl
  · intro hk
    rw [← hck] at hk
    rw [hk]
    rfl

/-- Witness for `c8_basmalah_flag` on the end-to-end stream, at chapter 1
(flag `false`). -/
theorem c8_basmalah_flag_witness :
    ((run endToEndInput).getD initState).chapters.length = 2 ∧
    (Chapter.basmalah
        (((lookup ((run endToEndInput).getD initState).chapters 1).getD
          (chapterRecOf (mkObs 1 1 1)))) = false
      ↔ (Chapter.id (((lookup ((run endToEndInput).getD initState).chapters 1).getD
          (chapterRecOf (mkObs 1 1 1)))) = 1
        ∨ Chapter.id (((lookup ((run endToEndInput).getD initState).chapters 1).getD
          (chapterRecOf (mkObs 1 1 1)))) = 9)) := by
  constructor
  · rfl
  · exact c8_basmalah_flag endToEndInput ((run endToEndInput).getD initState) rfl 1
      ((lookup ((run endToEndInput).getD initState).chapters 1).getD
        (chapterRecOf (mkObs 1 1 1))) rfl

/-! ## C9: the sentinel pointers and ingestion totality -/

/-- C9: per-verse ingestion is total exactly on non-sentinel ids.  First
conjunct: from any state whose pointers are the sentinel or present keys
(which holds on every reachable state) and whose page record exists, an
observation with chapter and section ids at least 1 ingests successfully,
every dict lookup hitting a present key, and re-establishes the pointer
invariant.  Second and third conjuncts: a first observation carrying the
sentinel `chapter_id = 0` (resp. `section_id = 0`) makes the
change-detection of line 314 (resp. 329) compare equal to the initialized
pointer, so no record is created and the set-insertion of line 341
(resp. 344) raises a missing-key error. -/
theorem c9_sentinel_totality :
    (∀ (page_id : Nat) (s : AggState) (o : Obs), PointersInv s →
      page_id ∈ keysOf s.pages → 1 ≤ o.chapter_number → 1 ≤ o.section_number →
      (ingestVerse page_id s o).isSome = true
        ∧ PointersInv ((ingestVerse page_id s o).getD s)) ∧
    (∀ (page_id : Nat) (o : Obs), o.chapter_number = 0 →
      ingestVerse page_id (startPage initState page_id) o = none) ∧
    (∀ (page_id : Nat) (o : Obs), 1 ≤ o.chapter_number → o.section_number = 0 →
      ingestVerse page_id (startPage initState page_id) o = none) := by
  refine ⟨?_, ?_, ?_⟩
  · intro page_id s o hPtr hpg hc1 hs1
    have hcA : o.chapter_number ∈ keysOf (chaptersAfter s o) := by
      unfold chaptersAfter
      by_cases hb : o.chapter_number ≠ s.current_chapter
      · rw [if_pos hb]
        exact mem_keysOf_upsert_self _ _ _
      · rw [if_neg hb]
        rw [not_ne_iff] at hb
        rcases hPtr.1 with h0 | hmem
        · rw [← hb] at h0
          omega
        · rwa [← hb] at hmem
    have hsA : o.section_number ∈ keysOf (sectionsAfter s o) := by
      unfold sectionsAfter
      by_cases hb : o.section_number ≠ s.current_section
      · rw [if_pos hb]
        exact mem_keysOf_upsert_self _ _ _
      · rw [if_neg hb]
        rw [not_ne_iff] at hb
        rcases hPtr.2 with h0 | hmem
        · rw [← hb] at h0
          omega
        · rwa [← hb] at hmem
    rw [ingestVerse_succeeds hcA hsA hpg]
    refine ⟨rfl, ?_, ?_⟩
    · right
      show o.chapter_number ∈ keysOf (mapUpdate (chaptersAfter s o) _ _)
      rwa [keysOf_mapUpdate]
    · right
      show o.section_number ∈ keysOf (mapUpdate (sectionsAfter s o) _ _)
      rwa [keysOf_mapUpdate]
  · intro page_id o hc0
    rw [ingestVerse_eq, if_neg]
    intro hcond
    have := hcond.1
    unfold chaptersAfter startPage at this
    rw [hc0] at this
    simp [initState, keysOf] at this
  · intro page_id o hc1 hs0
    rw [ingestVerse_eq, if_neg]
    intro hcond
    have := hcond.2.1
    unfold sectionsAfter startPage at this
    rw [hs0] at this
    simp [initState, keysOf] at this

/-- Witness for `c9_sentinel_totality`: positive case at the first
observation of the end-to-end stream, negative cases at sentinel
observations. -/
theorem c9_sentinel_totality_witness :
    ((ingestVerse 1 (startPage initState 1) (mkObs 1 1 1)).isSome = true
      ∧ PointersInv ((ingestVerse 1 (startPage initState 1)
          (mkObs 1 1 1)).getD (startPage initState 1))) ∧
    ingestVerse 1 (startPage initState 1) (mkObs 0 1 1) = none ∧
    ingestVerse 1 (startPage initState 1) (mkObs 1 1 0) = none := by
  refine ⟨?_, ?_, ?_⟩
  · exact c9_sentinel_totality.1 1 (startPage initState 1) (mkObs 1 1 1)
      (by constructor <;> exact Or.inl rfl) (by decide) (by decide) (by decide)
  · exact c9_sentinel_totality.2.1 1 (mkObs 0 1 1) rfl
  · exact c9_sentinel_totality.2.2 1 (mkObs 1 1 0) (by decide) rfl

/-! ## C10: the end-of-page append on a verse-less first page -/

/-- C10: if the first page produces no verse observation, both pointers are
still the sentinel `0`, which is not a key of the (empty) chapters and
sections dicts, so the end-of-page append of line 353 fails with a
missing-key error instead of recording the page; with at least one verse
(of non-sentinel ids) on the page, the whole single-page run succeeds. -/
theorem c10_empty_first_page :
    (∀ page_id : Nat,
      run [{ page_number := page_id, verses := [] }] = none) ∧
    (∀ (page_id : Nat) (o : Obs), 1 ≤ o.chapter_number → 1 ≤ o.section_number →
      (run [{ page_number := page_id, verses := [o] }]).isSome = true) := by
  constructor
  · intro page_id
    have hend : endPage (startPage initState page_id) page_id = none := by
      rw [endPage_eq, if_neg]
      intro hcond
      have h0 := hcond.1
      have hcur : (startPage initState page_id).current_chapter = 0 := rfl
      have hch : (startPage initState page_id).chapters = [] := rfl
      rw [hcur, hch] at h0
      simp [keysOf] at h0
    have hrp : runPage initState { page_number := page_id, verses := [] }
        = none := by
      unfold runPage
      rw [show ingestList page_id (startPage initState page_id) [] =
        some (startPage initState page_id) from rfl]
      exact hend
    show runFrom initState _ = none
    unfold runFrom
    rw [hrp]
  · intro page_id o hc1 hs1
    have hpp : (startPage initState page_id).pages
        = upsert initState.pages page_id
            { id := page_id, number := page_id,
              verses := [], chapters := [], sections := [] } := rfl
    have hpg : page_id ∈ keysOf (startPage initState page_id).pages := by
      rw [hpp]
      exact mem_keysOf_upsert_self _ _ _
    have hcur : (startPage initState page_id).current_chapter = 0 := rfl
    have hsur : (startPage initState page_id).current_section = 0 := rfl
    have hcA : o.chapter_number
        ∈ keysOf (chaptersAfter (startPage initState page_id) o) := by
      unfold chaptersAfter
      rw [if_pos]
      · exact mem_keysOf_upsert_self _ _ _
      · rw [hcur]
        omega
    have hsA : o.section_number
        ∈ keysOf (sectionsAfter (startPage initState page_id) o) := by
      unfold sectionsAfter
      rw [if_pos]
      · exact mem_keysOf_upsert_self _ _ _
      · rw [hsur]
        omega
    have hone : ingestList page_id (startPage initState page_id) [o]
        = some (ingestResult page_id (startPage initState page_id) o) := by
      show (match ingestVerse page_id (startPage initState page_id) o with
        | none => none
        | some s' => ingestList page_id s' []) = _
      rw [ingestVerse_succeeds hcA hsA hpg]
      rfl
    obtain ⟨s2, hs2⟩ : ∃ s2,
        endPage (ingestResult page_id (startPage initState page_id) o) page_id
          = some s2 := by
      rw [endPage_eq, if_pos]
      · exact ⟨_, rfl⟩
      · constructor
        · show o.chapter_number ∈ keysOf (mapUpdate (chaptersAfter _ o) _ _)
          rwa [keysOf_mapUpdate]
        · show o.section_number ∈ keysOf (mapUpdate (sectionsAfter _ o) _ _)
          rwa [keysOf_mapUpdate]
    have hrp : runPage initState { page_number := page_id, verses := [o] }
        = some s2 := by
      unfold runPage
      rw [hone]
      exact hs2
    show (runFrom initState _).isSome = true
    unfold runFrom
    rw [hrp]
    rfl

/-- Witness for `c10_empty_first_page` at page 1. -/
theorem c10_empty_first_page_witness :
    run [{ page_number := 1, verses := [] }] = none ∧
    (run [{ page_number := 1, verses := [mkObs 1 1 1] }]).isSome = true := by
  constructor
  · exact c10_empty_first_page.1 1
  · exact c10_empty_first_page.2 1 (mkObs 1 1 1) (by decide) (by decide)

/-! ## C4: one explanation per distinct verse id, language fixed -/

theorem explanations_keys_ingest (pid : Nat) (s : AggState) (o : Obs)
    (s' : AggState) (h : ingestVerse pid s o = some s')
    (hfresh : vidOf o ∉ keysOf s.explanations) :
    keysOf s'.explanations = keysOf s.explanations ++ [vidOf o] := by
  obtain ⟨-, -, -, rfl⟩ := ingestVerse_some h
  exact keysOf_upsert_not_mem _ _ _ hfresh

theorem explanations_language_ingest (pid : Nat) (s : AggState) (o : Obs)
    (s' : AggState) (h : ingestVerse pid s o = some s')
    (hAR : ∀ e ∈ s.explanations, e.2.language = "AR") :
    ∀ e ∈ s'.explanations, e.2.language = "AR" := by
  obtain ⟨-, -, -, rfl⟩ := ingestVerse_some h
  intro e he
  have he' : e ∈ upsert s.explanations (vidOf o) (expRecOf pid o) := he
  rcases mem_upsert he' with h' | h'
  · exact hAR e h'
  · rw [h']
    rfl

theorem c4_ingestList : ∀ (l : List Obs) (pid : Nat) (s s' : AggState),
    ingestList pid s l = some s' →
    (keysOf s.explanations ++ verseIds l).Nodup →
    keysOf s'.explanations = keysOf s.explanations ++ verseIds l ∧
    ((∀ e ∈ s.explanations, e.2.language = "AR") →
      ∀ e ∈ s'.explanations, e.2.language = "AR")
  | [], pid, s, s', h, _ => by
    simp [ingestList] at h
    rw [← h]
    refine ⟨by simp [verseIds], ?_⟩
    intro hAR
    exact hAR
  | o :: rest, pid, s, s', h, hn => by
    unfold ingestList at h
    rcases ho : ingestVerse pid s o with _ | s1
    · rw [ho] at h
      exact Option.noConfusion h
    · rw [ho] at h
      have hvl : verseIds (o :: rest) = vidOf o :: verseIds rest := rfl
      rw [hvl] at hn
      have hfresh : vidOf o ∉ keysOf s.explanations := by
        rw [List.nodup_append] at hn
        intro hmem
        exact hn.2.2 hmem (by simp)
      have hk1 := explanations_keys_ingest pid s o s1 ho hfresh
      have hn1 : (keysOf s1.explanations ++ verseIds rest).Nodup := by
        rw [hk1, List.append_assoc]
        simpa [List.singleton_append] using hn
      obtain ⟨hk2, hl2⟩ := c4_ingestList rest pid s1 s' h hn1
      refine ⟨?_, ?_⟩
      · rw [hk2, hk1, List.append_assoc]
        rfl
      · intro hAR
        exact hl2 (explanations_language_ingest pid s o s1 ho hAR)

theorem c4_runFrom : ∀ (ps : List PageObs) (s s' : AggState),
    runFrom s ps = some s' →
    (keysOf s.explanations ++ verseIds (obsStream ps)).Nodup →
    keysOf s'.explanations = keysOf s.explanations ++ verseIds (obsStream ps) ∧
    ((∀ e ∈ s.explanations, e.2.language = "AR") →
      ∀ e ∈ s'.explanations, e.2.language = "AR")
  | [], s, s', h, _ => by
    simp [runFrom] at h
    rw [← h]
    refine ⟨by simp [obsStream, verseIds], ?_⟩
    intro hAR
    exact hAR
  | p :: rest, s, s', h, hn => by
    unfold runFrom at h
    rcases hp : runPage s p with _ | s1
    · rw [hp] at h
      exact Option.noConfusion h
    · rw [hp] at h
      have hob : obsStream (p :: rest) = p.verses ++ obsStream rest := rfl
      have hsplit : verseIds (obsStream (p :: rest))
          = verseIds p.verses ++ verseIds (obsStream rest) := by
        rw [hob]
        exact List.map_append _ _ _
      rw [hsplit] at hn
      unfold runPage at hp
      rcases hl : ingestList p.page_number (startPage s p.page_number) p.verses
          with _ | s2
      · rw [hl] at hp
        exact Option.noConfusion hp
      · rw [hl] at hp
        have hstart : (startPage s p.page_number).explanations = s.explanations := rfl
        have hn' : (keysOf (startPage s p.page_number).explanations
            ++ verseIds p.verses).Nodup := by
          rw [hstart]
          rw [← List.append_assoc] at hn
          exact hn.sublist (List.sublist_append_left _ _)
        obtain ⟨hk2, hl2⟩ := c4_ingestList p.verses p.page_number _ s2 hl hn'
        have hp2 : endPage s2 p.page_number = some s1 := hp
        have hend : s1.explanations = s2.explanations := by
          rw [endPage_eq] at hp2
          by_cases hcond : s2.current_chapter ∈ keysOf s2.chapters
              ∧ s2.current_section ∈ keysOf s2.sections
          · rw [if_pos hcond] at hp2
            obtain rfl := Option.some_inj.mp hp2.symm
            rfl
          · rw [if_neg hcond] at hp2
            exact Option.noConfusion hp2
        have hn2 : (keysOf s1.explanations ++ verseIds (obsStream rest)).Nodup := by
          rw [hend, hk2, hstart, List.append_assoc]
          exact hn
        obtain ⟨hk3, hl3⟩ := c4_runFrom rest s1 s' h hn2
        refine ⟨?_, ?_⟩
        · rw [hk3, hend, hk2, hstart, List.append_assoc, hsplit]
        · intro hAR
          refine hl3 ?_
          rw [hend]
          refine hl2 ?_
          rw [hstart]
          exact hAR

/-- C4 (amended): for a stream of N observations with pairwise-distinct
verse ids, a completed run leaves exactly N explanation records — in
general one per distinct verse id, since `explanation_id` is the verse id
(line 287) and a repeated id overwrites — and every explanation record's
language field is the primary script identifier "AR" (line 295). -/
theorem c4_explanations_count (ps : List PageObs) (s : AggState)
    (hn : (verseIds (obsStream ps)).Nodup) (h : run ps = some s) :
    s.explanations.length = (obsStream ps).length ∧
    ∀ e ∈ s.explanations, e.2.language = "AR" := by
  have hinit : keysOf initState.explanations = ([] : List String) := rfl
  obtain ⟨hk, hl⟩ := c4_runFrom ps initState s h (by rw [hinit]; simpa using hn)
  constructor
  · have h1 : (keysOf s.explanations).length = s.explanations.length := by
      simp [keysOf]
    have h2 : (verseIds (obsStream ps)).length = (obsStream ps).length := by
      simp [verseIds]
    rw [← h1, hk, hinit, List.nil_append, h2]
  · refine hl ?_
    intro e he
    simp [initState] at he

/-- Witness for `c4_explanations_count` on the end-to-end stream: three
observations, three explanation records. -/
theorem c4_explanations_count_witness :
    ((run endToEndInput).getD initState).explanations.length
      = (obsStream endToEndInput).length :=
  (c4_explanations_count endToEndInput ((run endToEndInput).getD initState)
    (by decide) rfl).1

/-! ## C5: page sets versus listed verses -/

theorem verses_keys_ingest (pid : Nat) (s : AggState) (o : Obs)
    (s' : AggState) (h : ingestVerse pid s o = some s')
    (hfresh : vidOf o ∉ keysOf s.verses) :
    keysOf s'.verses = keysOf s.verses ++ [vidOf o] := by
  obtain ⟨-, -, -, rfl⟩ := ingestVerse_some h
  exact keysOf_upsert_not_mem _ _ _ hfresh

theorem pageSetsInv_ingest (pid : Nat) (s : AggState) (o : Obs)
    (s' : AggState) (h : ingestVerse pid s o = some s')
    (hfresh : vidOf o ∉ keysOf s.verses)
    (hInv : PageSetsInv s) : PageSetsInv s' := by
  obtain ⟨-, -, -, rfl⟩ := ingestVerse_some h
  have hlook : ∀ w : String, w ∈ keysOf s.verses →
      lookup (ingestResult pid s o).verses w = lookup s.verses w := by
    intro w hw
    show lookup (upsert s.verses (vidOf o) (verseRecOf pid o)) w = _
    refine lookup_upsert_ne _ _ _ _ ?_
    intro hwv
    rw [hwv] at hw
    exact hfresh hw
  have hvid : lookup (ingestResult pid s o).verses (vidOf o)
      = some (verseRecOf pid o) := lookup_upsert_self _ _ _
  intro e he
  have he' : e ∈ mapUpdate s.pages pid
      (pageUpd o.chapter_number o.section_number (vidOf o)) := he
  rcases mem_mapUpdate he' with hold | ⟨pg0, hpg0, rfl⟩
  · obtain ⟨h1, h2, h3⟩ := hInv e hold
    refine ⟨?_, ?_, ?_⟩
    · intro v hv
      obtain ⟨r, hr, hrp⟩ := h1 v hv
      exact ⟨r, by rw [hlook v (mem_keys_of_lookup_eq_some hr)]; exact hr, hrp⟩
    · intro c
      constructor
      · intro hcmem
        obtain ⟨v, hv, r, hr, hrc⟩ := (h2 c).mp hcmem
        exact ⟨v, hv, r,
          by rw [hlook v (mem_keys_of_lookup_eq_some hr)]; exact hr, hrc⟩
      · rintro ⟨v, hv, r, hr, hrc⟩
        obtain ⟨r0, hr0, -⟩ := h1 v hv
        rw [hlook v (mem_keys_of_lookup_eq_some hr0)] at hr
        exact (h2 c).mpr ⟨v, hv, r, hr, hrc⟩
    · intro x
      constructor
      · intro hxmem
        obtain ⟨v, hv, r, hr, hrx⟩ := (h3 x).mp hxmem
        exact ⟨v, hv, r,
          by rw [hlook v (mem_keys_of_lookup_eq_some hr)]; exact hr, hrx⟩
      · rintro ⟨v, hv, r, hr, hrx⟩
        obtain ⟨r0, hr0, -⟩ := h1 v hv
        rw [hlook v (mem_keys_of_lookup_eq_some hr0)] at hr
        exact (h3 x).mpr ⟨v, hv, r, hr, hrx⟩
  · obtain ⟨h1, h2, h3⟩ := hInv (pid, pg0) hpg0
    refine ⟨?_, ?_, ?_⟩
    · intro v hv
      rcases List.mem_append.mp hv with hv0 | hv1
      · obtain ⟨r, hr, hrp⟩ := h1 v hv0
        exact ⟨r, by rw [hlook v (mem_keys_of_lookup_eq_some hr)]; exact hr, hrp⟩
      · have hveq : v = vidOf o := by simpa using hv1
        rw [hveq]
        exact ⟨verseRecOf pid o, hvid, rfl⟩
    · intro c
      constructor
      · intro hcmem
        rcases mem_insertSet.mp hcmem with hc0 | rfl
        · obtain ⟨v, hv, r, hr, hrc⟩ := (h2 c).mp hc0
          exact ⟨v, List.mem_append.mpr (Or.inl hv), r,
            by rw [hlook v (mem_keys_of_lookup_eq_some hr)]; exact hr, hrc⟩
        · exact ⟨vidOf o, List.mem_append.mpr (Or.inr (by simp)),
            verseRecOf pid o, hvid, rfl⟩
      · rintro ⟨v, hv, r, hr, hrc⟩
        rcases List.mem_append.mp hv with hv0 | hv1
        · obtain ⟨r0, hr0, -⟩ := h1 v hv0
          rw [hlook v (mem_keys_of_lookup_eq_some hr0)] at hr
          exact mem_insertSet.mpr (Or.inl ((h2 c).mpr ⟨v, hv0, r, hr, hrc⟩))
        · have hveq : v = vidOf o := by simpa using hv1
          rw [hveq, hvid] at hr
          obtain rfl := Option.some_inj.mp hr.symm
          exact mem_insertSet.mpr (Or.inr (by rw [← hrc]; rfl))
    · intro x
      constructor
      · intro hxmem
        rcases mem_insertSet.mp hxmem with hx0 | rfl
        · obtain ⟨v, hv, r, hr, hrx⟩ := (h3 x).mp hx0
          exact ⟨v, List.mem_append.mpr (Or.inl hv), r,
            by rw [hlook v (mem_keys_of_lookup_eq_some hr)]; exact hr, hrx⟩
        · exact ⟨vidOf o, List.mem_append.mpr (Or.inr (by simp)),
            verseRecOf pid o, hvid, rfl⟩
      · rintro ⟨v, hv, r, hr, hrx⟩
        rcases List.mem_append.mp hv with hv0 | hv1
        · obtain ⟨r0, hr0, -⟩ := h1 v hv0
          rw [hlook v (mem_keys_of_lookup_eq_some hr0)] at hr
          exact mem_insertSet.mpr (Or.inl ((h3 x).mpr ⟨v, hv0, r, hr, hrx⟩))
        · have hveq : v = vidOf o := by simpa using hv1
          rw [hveq, hvid] at hr
          obtain rfl := Option.some_inj.mp hr.symm
          exact mem_insertSet.mpr (Or.inr (by rw [← hrx]; rfl))

theorem pageSetsInv_startPage (s : AggState) (pid : Nat)
    (hInv : PageSetsInv s) : PageSetsInv (startPage s pid) := by
  intro e he
  have he' : e ∈ upsert s.pages pid
      { id := pid, number := pid, verses := [], chapters := [], sections := [] } := he
  rcases mem_upsert he' with hold | hnew
  · exact hInv e hold
  · rw [hnew]
    refine ⟨?_, ?_, ?_⟩
    · intro v hv
      exact absurd hv (List.not_mem_nil v)
    · intro c
      simp
    · intro x
      simp

theorem pageSetsInv_endPage (s : AggState) (pid : Nat) (s' : AggState)
    (h : endPage s pid = some s') (hInv : PageSetsInv s) : PageSetsInv s' := by
  rw [endPage_eq] at h
  by_cases hcond : s.current_chapter ∈ keysOf s.chapters
      ∧ s.current_section ∈ keysOf s.sections
  · rw [if_pos hcond] at h
    obtain rfl := Option.some_inj.mp h.symm
    intro e he
    exact hInv e he
  · rw [if_neg hcond] at h
    exact Option.noConfusion h

theorem c5_ingestList : ∀ (l : List Obs) (pid : Nat) (s s' : AggState),
    ingestList pid s l = some s' →
    (keysOf s.verses ++ verseIds l).Nodup →
    PageSetsInv s →
    PageSetsInv s' ∧ keysOf s'.verses = keysOf s.verses ++ verseIds l
  | [], pid, s, s', h, _, hInv => by
    simp [ingestList] at h
    rw [← h]
    exact ⟨hInv, by simp [verseIds]⟩
  | o :: rest, pid, s, s', h, hn, hInv => by
    unfold ingestList at h
    rcases ho : ingestVerse pid s o with _ | s1
    · rw [ho] at h
      exact Option.noConfusion h
    · rw [ho] at h
      have hvl : verseIds (o :: rest) = vidOf o :: verseIds rest := rfl
      rw [hvl] at hn
      have hfresh : vidOf o ∉ keysOf s.verses := by
        rw [List.nodup_append] at hn
        intro hmem
        exact hn.2.2 hmem (by simp)
      have hk1 := verses_keys_ingest pid s o s1 ho hfresh
      have hInv1 := pageSetsInv_ingest pid s o s1 ho hfresh hInv
      have hn1 : (keysOf s1.verses ++ verseIds rest).Nodup := by
        rw [hk1, List.append_assoc]
        simpa [List.singleton_append] using hn
      obtain ⟨hInv2, hk2⟩ := c5_ingestList rest pid s1 s' h hn1 hInv1
      refine ⟨hInv2, ?_⟩
      rw [hk2, hk1, List.append_assoc]
      rfl

theorem c5_runFrom : ∀ (ps : List PageObs) (s s' : AggState),
    runFrom s ps = some s' →
    (keysOf s.verses ++ verseIds (obsStream ps)).Nodup →
    PageSetsInv s →
    PageSetsInv s' ∧ keysOf s'.verses = keysOf s.verses ++ verseIds (obsStream ps)
  | [], s, s', h, _, hInv => by
    simp [runFrom] at h
    rw [← h]
    exact ⟨hInv, by simp [obsStream, verseIds]⟩
  | p :: rest, s, s', h, hn, hInv => by
    unfold runFrom at h
    rcases hp : runPage s p with _ | s1
    · rw [hp] at h
      exact Option.noConfusion h
    · rw [hp] at h
      have hsplit : verseIds (obsStream (p :: rest))
          = verseIds p.verses ++ verseIds (obsStream rest) :=
        List.map_append _ _ _
      rw [hsplit] at hn
      unfold runPage at hp
      rcases hl : ingestList p.page_number (startPage s p.page_number) p.verses
          with _ | s2
      · rw [hl] at hp
        exact Option.noConfusion hp
      · rw [hl] at hp
        have hp2 : endPage s2 p.page_number = some s1 := hp
        have hstart : (startPage s p.page_number).verses = s.verses := rfl
        have hn' : (keysOf (startPage s p.page_number).verses
            ++ verseIds p.verses).Nodup := by
          rw [hstart]
          rw [← List.append_assoc] at hn
          exact hn.sublist (List.sublist_append_left _ _)
        obtain ⟨hInv2, hk2⟩ := c5_ingestList p.verses p.page_number _ s2 hl hn'
          (pageSetsInv_startPage s p.page_number hInv)
        have hInv1 := pageSetsInv_endPage s2 p.page_number s1 hp2 hInv2
        have hend : s1.verses = s2.verses := by
          rw [endPage_eq] at hp2
          by_cases hcond : s2.current_chapter ∈ keysOf s2.chapters
              ∧ s2.current_section ∈ keysOf s2.sections
          · rw [if_pos hcond] at hp2
            obtain rfl := Option.some_inj.mp hp2.symm
            rfl
          · rw [if_neg hcond] at hp2
            exact Option.noConfusion hp2
        have hn2 : (keysOf s1.verses ++ verseIds (obsStream rest)).Nodup := by
          rw [hend, hk2, hstart, List.append_assoc]
          exact hn
        obtain ⟨hInv3, hk3⟩ := c5_runFrom rest s1 s' h hn2 hInv1
        refine ⟨hInv3, ?_⟩
        rw [hk3, hend, hk2, hstart, List.append_assoc, hsplit]

/-- C5 (amended): for a stream whose verse ids are pairwise distinct, every
page record's chapter set is exactly the set of chapter ids of the verses
in its verse list, and its section set exactly their section ids.  (With a
repeated verse id the record overwrite can leave a stale section id in the
set, as the counterexample shows.) -/
theorem c5_page_sets (ps : List PageObs) (s : AggState)
    (hn : (verseIds (obsStream ps)).Nodup) (h : run ps = some s) :
    ∀ pid pr, lookup s.pages pid = some pr →
      (∀ c, c ∈ pr.chapters ↔ c ∈ pageChapterIdsOf s pr) ∧
      (∀ x, x ∈ pr.sections ↔ x ∈ pageSectionIdsOf s pr) := by
  have hInv0 : PageSetsInv initState := by
    intro e he
    simp [initState] at he
  obtain ⟨hInv, -⟩ := c5_runFrom ps initState s h (by simpa using hn) hInv0
  intro pid pr hpr
  obtain ⟨-, h2, h3⟩ := hInv (pid, pr) (lookup_mem hpr)
  constructor
  · intro c
    rw [h2 c]
    unfold pageChapterIdsOf
    rw [List.mem_filterMap]
    constructor
    · rintro ⟨v, hv, r, hr, hrc⟩
      exact ⟨v, hv, by rw [hr, Option.map_some', hrc]⟩
    · rintro ⟨v, hv, hmap⟩
      obtain ⟨r, hr, hrc⟩ := Option.map_eq_some'.mp hmap
      exact ⟨v, hv, r, hr, hrc⟩
  · intro x
    rw [h3 x]
    unfold pageSectionIdsOf
    rw [List.mem_filterMap]
    constructor
    · rintro ⟨v, hv, r, hr, hrx⟩
      exact ⟨v, hv, by rw [hr, Option.map_some', hrx]⟩
    · rintro ⟨v, hv, hmap⟩
      obtain ⟨r, hr, hrx⟩ := Option.map_eq_some'.mp hmap
      exact ⟨v, hv, r, hr, hrx⟩

/-- Witness for `c5_page_sets` on the end-to-end stream at page 1 and
chapter id 1. -/
theorem c5_page_sets_witness :
    1 ∈ Page.chapters ((lookup ((run endToEndInput).getD initState).pages 1).getD
        { id := 1, number := 1, verses := [], chapters := [], sections := [] })
    ↔ 1 ∈ pageChapterIdsOf ((run endToEndInput).getD initState)
        ((lookup ((run endToEndInput).getD initState).pages 1).getD
          { id := 1, number := 1, verses := [], chapters := [], sections := [] }) :=
  ((c5_page_sets endToEndInput ((run endToEndInput).getD initState)
    (by decide) rfl) 1
    ((lookup ((run endToEndInput).getD initState).pages 1).getD
      { id := 1, number := 1, verses := [], chapters := [], sections := [] })
    rfl).1 1

/-! ## C3: cross-reference invariant -/

/-- One verse-ingestion step preserves the cross-reference invariant, given
a fresh verse id and freshness of the chapter/section id whenever it
triggers change-detection (the no-re-entry condition). -/
theorem crossRefInv_ingest (pid : Nat) (s : AggState) (o : Obs) (s' : AggState)
    (h : ingestVerse pid s o = some s')
    (hfresh : vidOf o ∉ keysOf s.verses)
    (hchF : o.chapter_number ≠ s.current_chapter →
      o.chapter_number ∉ keysOf s.chapters)
    (hseF : o.section_number ≠ s.current_section →
      o.section_number ∉ keysOf s.sections)
    (hA : CrossRefInv s) (hB : ListedVersesExist s) :
    CrossRefInv s' ∧ ListedVersesExist s' ∧
    keysOf s'.verses = keysOf s.verses ++ [vidOf o] ∧
    keysOf s'.pages = keysOf s.pages ∧
    ((o.chapter_number = s.current_chapter
        ∧ keysOf s'.chapters = keysOf s.chapters)
      ∨ (o.chapter_number ≠ s.current_chapter
        ∧ keysOf s'.chapters = keysOf s.chapters ++ [o.chapter_number])) ∧
    ((o.section_number = s.current_section
        ∧ keysOf s'.sections = keysOf s.sections)
      ∨ (o.section_number ≠ s.current_section
        ∧ keysOf s'.sections = keysOf s.sections ++ [o.section_number])) ∧
    s'.current_chapter = o.chapter_number ∧
    s'.current_section = o.section_number := by
  obtain ⟨hc, hs, hp, rfl⟩ := ingestVerse_some h
  have hlook : ∀ w : String, w ∈ keysOf s.verses →
      lookup (ingestResult pid s o).verses w = lookup s.verses w := by
    intro w hw
    show lookup (upsert s.verses (vidOf o) (verseRecOf pid o)) w = _
    refine lookup_upsert_ne _ _ _ _ ?_
    intro hwv
    rw [hwv] at hw
    exact hfresh hw
  have hvid : lookup (ingestResult pid s o).verses (vidOf o)
      = some (verseRecOf pid o) := lookup_upsert_self _ _ _
  have hkeysV : keysOf (ingestResult pid s o).verses
      = keysOf s.verses ++ [vidOf o] := keysOf_upsert_not_mem _ _ _ hfresh
  -- chapter-side bundle
  have hchB1 : ∀ e ∈ chaptersAfter s o, ∀ w ∈ e.2.verses, w ∈ keysOf s.verses := by
    unfold chaptersAfter
    by_cases hch : o.chapter_number ≠ s.current_chapter
    · rw [if_pos hch]
      intro e he
      rcases mem_upsert he with h' | h'
      · exact hB.2.1 e h'
      · rw [h']
        intro w hw
        exact absurd hw (List.not_mem_nil w)
    · rw [if_neg hch]
      exact hB.2.1
  have hchB2 : ∃ c0, lookup (chaptersAfter s o) o.chapter_number = some c0
      ∧ ∀ w ∈ c0.verses, w ∈ keysOf s.verses := by
    obtain ⟨c0, hc0⟩ := lookup_isSome_of_mem_keys hc
    exact ⟨c0, hc0, hchB1 _ (lookup_mem hc0)⟩
  have hchB3 : ∀ a, a ≠ o.chapter_number →
      lookup (chaptersAfter s o) a = lookup s.chapters a := by
    unfold chaptersAfter
    by_cases hch : o.chapter_number ≠ s.current_chapter
    · rw [if_pos hch]
      intro a ha
      exact lookup_upsert_ne _ _ _ _ ha
    · rw [if_neg hch]
      intro a ha
      rfl
  have hchB4 : (o.chapter_number = s.current_chapter
        ∧ chaptersAfter s o = s.chapters)
      ∨ (o.chapter_number ≠ s.current_chapter
        ∧ o.chapter_number ∉ keysOf s.chapters
        ∧ keysOf (chaptersAfter s o) = keysOf s.chapters ++ [o.chapter_number]) := by
    by_cases hch : o.chapter_number = s.current_chapter
    · refine Or.inl ⟨hch, ?_⟩
      unfold chaptersAfter
      rw [if_neg (by simp [hch])]
    · have hfc := hchF hch
      refine Or.inr ⟨hch, hfc, ?_⟩
      unfold chaptersAfter
      rw [if_pos hch]
      exact keysOf_upsert_not_mem _ _ _ hfc
  -- section-side bundle
  have hseB1 : ∀ e ∈ sectionsAfter s o, ∀ w ∈ e.2.verses, w ∈ keysOf s.verses := by
    unfold sectionsAfter
    by_cases hse : o.section_number ≠ s.current_section
    · rw [if_pos hse]
      intro e he
      rcases mem_upsert he with h' | h'
      · exact hB.2.2 e h'
      · rw [h']
        intro w hw
        exact absurd hw (List.not_mem_nil w)
    · rw [if_neg hse]
      exact hB.2.2
  have hseB2 : ∃ x0, lookup (sectionsAfter s o) o.section_number = some x0
      ∧ ∀ w ∈ x0.verses, w ∈ keysOf s.verses := by
    obtain ⟨x0, hx0⟩ := lookup_isSome_of_mem_keys hs
    exact ⟨x0, hx0, hseB1 _ (lookup_mem hx0)⟩
  have hseB3 : ∀ a, a ≠ o.section_number →
      lookup (sectionsAfter s o) a = lookup s.sections a := by
    unfold sectionsAfter
    by_cases hse : o.section_number ≠ s.current_section
    · rw [if_pos hse]
      intro a ha
      exact lookup_upsert_ne _ _ _ _ ha
    · rw [if_neg hse]
      intro a ha
      rfl
  have hseB4 : (o.section_number = s.current_section
        ∧ sectionsAfter s o = s.sections)
      ∨ (o.section_number ≠ s.current_section
        ∧ o.section_number ∉ keysOf s.sections
        ∧ keysOf (sectionsAfter s o) = keysOf s.sections ++ [o.section_number]) := by
    by_cases hse : o.section_number = s.current_section
    · refine Or.inl ⟨hse, ?_⟩
      unfold sectionsAfter
      rw [if_neg (by simp [hse])]
    · have hfs := hseF hse
      refine Or.inr ⟨hse, hfs, ?_⟩
      unfold sectionsAfter
      rw [if_pos hse]
      exact keysOf_upsert_not_mem _ _ _ hfs
  have hpgB : ∃ pg0, lookup s.pages pid = some pg0
      ∧ ∀ w ∈ pg0.verses, w ∈ keysOf s.verses := by
    obtain ⟨pg0, h0⟩ := lookup_isSome_of_mem_keys hp
    exact ⟨pg0, h0, hB.1 _ (lookup_mem h0)⟩
  refine ⟨?_, ?_, hkeysV, ?_, ?_, ?_, rfl, rfl⟩
  · -- CrossRefInv
    intro k v hkv
    by_cases hk : k = vidOf o
    · subst hk
      rw [hvid] at hkv
      obtain rfl := Option.some_inj.mp hkv.symm
      refine ⟨?_, ?_, ?_⟩
      · show ((lookup (mapUpdate s.pages pid
          (pageUpd o.chapter_number o.section_number (vidOf o))) pid).map
            fun pg => pg.verses.count (vidOf o)) = some 1
        rw [lookup_mapUpdate_map]
        obtain ⟨pg0, h0, hsub⟩ := hpgB
        rw [h0]
        show some ((pg0.verses ++ [vidOf o]).count (vidOf o)) = some 1
        rw [List.count_append,
          List.count_eq_zero.mpr (fun hmem => hfresh (hsub _ hmem))]
        simp
      · show ((lookup (mapUpdate (chaptersAfter s o) o.chapter_number
          (chapterUpd o.section_number (vidOf o))) o.chapter_number).map
            fun c => c.verses.count (vidOf o)) = some 1
        rw [lookup_mapUpdate_map]
        obtain ⟨c0, h0, hsub⟩ := hchB2
        rw [h0]
        show some ((c0.verses ++ [vidOf o]).count (vidOf o)) = some 1
        rw [List.count_append,
          List.count_eq_zero.mpr (fun hmem => hfresh (hsub _ hmem))]
        simp
      · show ((lookup (mapUpdate (sectionsAfter s o) o.section_number
          (sectionUpd o.chapter_number (vidOf o))) o.section_number).map
            fun x => x.verses.count (vidOf o)) = some 1
        rw [lookup_mapUpdate_map]
        obtain ⟨x0, h0, hsub⟩ := hseB2
        rw [h0]
        show some ((x0.verses ++ [vidOf o]).count (vidOf o)) = some 1
        rw [List.count_append,
          List.count_eq_zero.mpr (fun hmem => hfresh (hsub _ hmem))]
        simp
    · have hkv' : lookup s.verses k = some v := by
        have heq : lookup (ingestResult pid s o).verses k = lookup s.verses k :=
          lookup_upsert_ne _ _ _ _ hk
        rw [← heq]
        exact hkv
      obtain ⟨hPg, hCh, hSe⟩ := hA k v hkv'
      have hcnt : ∀ l : List String, (l ++ [vidOf o]).count k = l.count k := by
        intro l
        rw [List.count_append]
        simp [List.count_cons, hk, Ne.symm hk]
      refine ⟨?_, ?_, ?_⟩
      · by_cases hvp : v.page = pid
        · rw [hvp] at hPg ⊢
          show ((lookup (mapUpdate s.pages pid
            (pageUpd o.chapter_number o.section_number (vidOf o))) pid).map
              fun pg => pg.verses.count k) = some 1
          rw [lookup_mapUpdate_map]
          obtain ⟨pg0, h0, hcount⟩ := Option.map_eq_some'.mp hPg
          rw [h0]
          show some ((pg0.verses ++ [vidOf o]).count k) = some 1
          rw [hcnt, hcount]
        · show ((lookup (mapUpdate s.pages pid
            (pageUpd o.chapter_number o.section_number (vidOf o))) v.page).map
              fun pg => pg.verses.count k) = some 1
          rw [lookup_mapUpdate_ne _ hvp]
          exact hPg
      · by_cases hvc : v.chapter = o.chapter_number
        · rcases hchB4 with ⟨hcheq, hCAeq⟩ | ⟨hchne, hfc, hkeys⟩
          · rw [hvc] at hCh ⊢
            show ((lookup (mapUpdate (chaptersAfter s o) o.chapter_number
              (chapterUpd o.section_number (vidOf o))) o.chapter_number).map
                fun c => c.verses.count k) = some 1
            rw [lookup_mapUpdate_map, hCAeq]
            obtain ⟨c0, h0, hcount⟩ := Option.map_eq_some'.mp hCh
            rw [h0]
            show some ((c0.verses ++ [vidOf o]).count k) = some 1
            rw [hcnt, hcount]
          · exfalso
            have hmem : v.chapter ∈ keysOf s.chapters := by
              obtain ⟨c0, h0, -⟩ := Option.map_eq_some'.mp hCh
              exact mem_keys_of_lookup_eq_some h0
            rw [hvc] at hmem
            exact hfc hmem
        · show ((lookup (mapUpdate (chaptersAfter s o) o.chapter_number
            (chapterUpd o.section_number (vidOf o))) v.chapter).map
              fun c => c.verses.count k) = some 1
          rw [lookup_mapUpdate_ne _ hvc, hchB3 _ hvc]
          exact hCh
      · by_cases hvs : v.sectionId = o.section_number
        · rcases hseB4 with ⟨hseeq, hSAeq⟩ | ⟨hsene, hfs, hkeys⟩
          · rw [hvs] at hSe ⊢
            show ((lookup (mapUpdate (sectionsAfter s o) o.section_number
              (sectionUpd o.chapter_number (vidOf o))) o.section_number).map
                fun x => x.verses.count k) = some 1
            rw [lookup_mapUpdate_map, hSAeq]
            obtain ⟨x0, h0, hcount⟩ := Option.map_eq_some'.mp hSe
            rw [h0]
            show some ((x0.verses ++ [vidOf o]).count k) = some 1
            rw [hcnt, hcount]
          · exfalso
            have hmem : v.sectionId ∈ keysOf s.sections := by
              obtain ⟨x0, h0, -⟩ := Option.map_eq_some'.mp hSe
              exact mem_keys_of_lookup_eq_some h0
            rw [hvs] at hmem
            exact hfs hmem
        · show ((lookup (mapUpdate (sectionsAfter s o) o.section_number
            (sectionUpd o.chapter_number (vidOf o))) v.sectionId).map
              fun x => x.verses.count k) = some 1
          rw [lookup_mapUpdate_ne _ hvs, hseB3 _ hvs]
          exact hSe
  · -- ListedVersesExist
    refine ⟨?_, ?_, ?_⟩
    · intro e he
      have he' : e ∈ mapUpdate s.pages pid
          (pageUpd o.chapter_number o.section_number (vidOf o)) := he
      rcases mem_mapUpdate he' with hold | ⟨pg0, hpg0, rfl⟩
      · intro w hw
        rw [hkeysV]
        exact List.mem_append.mpr (Or.inl (hB.1 e hold w hw))
      · intro w hw
        rw [hkeysV]
        rcases List.mem_append.mp hw with hw0 | hw1
        · exact List.mem_append.mpr (Or.inl (hB.1 (pid, pg0) hpg0 w hw0))
        · exact List.mem_append.mpr (Or.inr hw1)
    · intro e he
      have he' : e ∈ mapUpdate (chaptersAfter s o) o.chapter_number
          (chapterUpd o.section_number (vidOf o)) := he
      rcases mem_mapUpdate he' with hold | ⟨c0, hc0, rfl⟩
      · intro w hw
        rw [hkeysV]
        exact List.mem_append.mpr (Or.inl (hchB1 e hold w hw))
      · intro w hw
        rw [hkeysV]
        rcases List.mem_append.mp hw with hw0 | hw1
        · exact List.mem_append.mpr (Or.inl (hchB1 (o.chapter_number, c0) hc0 w hw0))
        · exact List.mem_append.mpr (Or.inr hw1)
    · intro e he
      have he' : e ∈ mapUpdate (sectionsAfter s o) o.section_number
          (sectionUpd o.chapter_number (vidOf o)) := he
      rcases mem_mapUpdate he' with hold | ⟨x0, hx0, rfl⟩
      · intro w hw
        rw [hkeysV]
        exact List.mem_append.mpr (Or.inl (hseB1 e hold w hw))
      · intro w hw
        rw [hkeysV]
        rcases List.mem_append.mp hw with hw0 | hw1
        · exact List.mem_append.mpr (Or.inl (hseB1 (o.section_number, x0) hx0 w hw0))
        · exact List.mem_append.mpr (Or.inr hw1)
  · -- pages keys unchanged
    show keysOf (mapUpdate s.pages pid _) = keysOf s.pages
    exact keysOf_mapUpdate _ _ _
  · -- chapters keys
    rcases hchB4 with ⟨hcheq, hCAeq⟩ | ⟨hchne, hfc, hkeys⟩
    · refine Or.inl ⟨hcheq, ?_⟩
      show keysOf (mapUpdate (chaptersAfter s o) _ _) = keysOf s.chapters
      rw [keysOf_mapUpdate, hCAeq]
    · refine Or.inr ⟨hchne, ?_⟩
      show keysOf (mapUpdate (chaptersAfter s o) _ _)
        = keysOf s.chapters ++ [o.chapter_number]
      rw [keysOf_mapUpdate, hkeys]
  · -- sections keys
    rcases hseB4 with ⟨hseeq, hSAeq⟩ | ⟨hsene, hfs, hkeys⟩
    · refine Or.inl ⟨hseeq, ?_⟩
      show keysOf (mapUpdate (sectionsAfter s o) _ _) = keysOf s.sections
      rw [keysOf_mapUpdate, hSAeq]
    · refine Or.inr ⟨hsene, ?_⟩
      show keysOf (mapUpdate (sectionsAfter s o) _ _)
        = keysOf s.sections ++ [o.section_number]
      rw [keysOf_mapUpdate, hkeys]

theorem crossRefInv_startPage (s : AggState) (pid : Nat)
    (hfresh : pid ∉ keysOf s.pages) (hA : CrossRefInv s) :
    CrossRefInv (startPage s pid) := by
  intro k v hkv
  have hkv' : lookup s.verses k = some v := hkv
  obtain ⟨hPg, hCh, hSe⟩ := hA k v hkv'
  refine ⟨?_, hCh, hSe⟩
  have hvpmem : v.page ∈ keysOf s.pages := by
    obtain ⟨pg0, h0, -⟩ := Option.map_eq_some'.mp hPg
    exact mem_keys_of_lookup_eq_some h0
  have hne : v.page ≠ pid := by
    intro he
    rw [he] at hvpmem
    exact hfresh hvpmem
  show ((lookup (upsert s.pages pid
    { id := pid, number := pid, verses := [], chapters := [], sections := [] })
      v.page).map fun pg => pg.verses.count k) = some 1
  rw [lookup_upsert_ne _ _ _ _ hne]
  exact hPg

theorem listedVersesExist_startPage (s : AggState) (pid : Nat)
    (hB : ListedVersesExist s) : ListedVersesExist (startPage s pid) := by
  refine ⟨?_, hB.2.1, hB.2.2⟩
  intro e he
  have he' : e ∈ upsert s.pages pid
      { id := pid, number := pid, verses := [], chapters := [], sections := [] } := he
  rcases mem_upsert he' with hold | hnew
  · exact hB.1 e hold
  · rw [hnew]
    intro w hw
    exact absurd hw (List.not_mem_nil w)

theorem endPage_some_fields (s : AggState) (pid : Nat) (s' : AggState)
    (h : endPage s pid = some s') :
    s'.verses = s.verses ∧ s'.pages = s.pages ∧
    keysOf s'.chapters = keysOf s.chapters ∧
    keysOf s'.sections = keysOf s.sections ∧
    s'.current_chapter = s.current_chapter ∧
    s'.current_section = s.current_section := by
  rw [endPage_eq] at h
  by_cases hcond : s.current_chapter ∈ keysOf s.chapters
      ∧ s.current_section ∈ keysOf s.sections
  · rw [if_pos hcond] at h
    obtain rfl := Option.some_inj.mp h.symm
    refine ⟨rfl, rfl, ?_, ?_, rfl, rfl⟩
    · simp [keysOf_mapUpdate]
    · simp [keysOf_mapUpdate]
  · rw [if_neg hcond] at h
    exact Option.noConfusion h

theorem crossRefInv_endPage (s : AggState) (pid : Nat) (s' : AggState)
    (h : endPage s pid = some s') (hA : CrossRefInv s) : CrossRefInv s' := by
  rw [endPage_eq] at h
  by_cases hcond : s.current_chapter ∈ keysOf s.chapters
      ∧ s.current_section ∈ keysOf s.sections
  · rw [if_pos hcond] at h
    obtain rfl := Option.some_inj.mp h.symm
    intro k v hkv
    have hkv' : lookup s.verses k = some v := hkv
    obtain ⟨hPg, hCh, hSe⟩ := hA k v hkv'
    refine ⟨hPg, ?_, ?_⟩
    · show ((lookup (mapUpdate s.chapters s.current_chapter
        (fun c => { c with pages := c.pages ++ [pid] })) v.chapter).map
          fun c => c.verses.count k) = some 1
      by_cases hvc : v.chapter = s.current_chapter
      · rw [hvc, lookup_mapUpdate_map, Option.map_map]
        rw [hvc] at hCh
        exact hCh
      · rw [lookup_mapUpdate_ne _ hvc]
        exact hCh
    · show ((lookup (mapUpdate s.sections s.current_section
        (fun x => { x with pages := x.pages ++ [pid] })) v.sectionId).map
          fun x => x.verses.count k) = some 1
      by_cases hvs : v.sectionId = s.current_section
      · rw [hvs, lookup_mapUpdate_map, Option.map_map]
        rw [hvs] at hSe
        exact hSe
      · rw [lookup_mapUpdate_ne _ hvs]
        exact hSe
  · rw [if_neg hcond] at h
    exact Option.noConfusion h

theorem listedVersesExist_endPage (s : AggState) (pid : Nat) (s' : AggState)
    (h : endPage s pid = some s') (hB : ListedVersesExist s) :
    ListedVersesExist s' := by
  rw [endPage_eq] at h
  by_cases hcond : s.current_chapter ∈ keysOf s.chapters
      ∧ s.current_section ∈ keysOf s.sections
  · rw [if_pos hcond] at h
    obtain rfl := Option.some_inj.mp h.symm
    refine ⟨hB.1, ?_, ?_⟩
    · intro e he
      have he' : e ∈ mapUpdate s.chapters s.current_chapter
          (fun c => { c with pages := c.pages ++ [pid] }) := he
      rcases mem_mapUpdate he' with hold | ⟨c0, hc0, rfl⟩
      · exact hB.2.1 e hold
      · intro w hw
        exact hB.2.1 _ hc0 w hw
    · intro e he
      have he' : e ∈ mapUpdate s.sections s.current_section
          (fun x => { x with pages := x.pages ++ [pid] }) := he
      rcases mem_mapUpdate he' with hold | ⟨x0, hx0, rfl⟩
      · exact hB.2.2 e hold
      · intro w hw
        exact hB.2.2 _ hx0 w hw
  · rw [if_neg hcond] at h
    exact Option.noConfusion h

theorem c3_ingestList : ∀ (l : List Obs) (pid : Nat) (s s' : AggState)
    (futC futS : List Nat),
    ingestList pid s l = some s' →
    CrossRefInv s → ListedVersesExist s →
    pid ∈ keysOf s.pages →
    (keysOf s.verses ++ verseIds l).Nodup →
    noReentryFrom s.current_chapter (keysOf s.chapters)
      (chapterIds l ++ futC) = true →
    noReentryFrom s.current_section (keysOf s.sections)
      (sectionIds l ++ futS) = true →
    CrossRefInv s' ∧ ListedVersesExist s' ∧
    keysOf s'.verses = keysOf s.verses ++ verseIds l ∧
    keysOf s'.pages = keysOf s.pages ∧
    noReentryFrom s'.current_chapter (keysOf s'.chapters) futC = true ∧
    noReentryFrom s'.current_section (keysOf s'.sections) futS = true
  | [], pid, s, s', futC, futS, h, hA, hB, hpg, hn, hcR, hsR => by
    simp [ingestList] at h
    rw [← h]
    exact ⟨hA, hB, by simp [verseIds], rfl, hcR, hsR⟩
  | o :: rest, pid, s, s', futC, futS, h, hA, hB, hpg, hn, hcR, hsR => by
    unfold ingestList at h
    rcases ho : ingestVerse pid s o with _ | s1
    · rw [ho] at h
      exact Option.noConfusion h
    · rw [ho] at h
      have hvl : verseIds (o :: rest) = vidOf o :: verseIds rest := rfl
      rw [hvl] at hn
      have hfresh : vidOf o ∉ keysOf s.verses := by
        rw [List.nodup_append] at hn
        intro hmem
        exact hn.2.2 hmem (by simp)
      have hclist : chapterIds (o :: rest) ++ futC
          = o.chapter_number :: (chapterIds rest ++ futC) := rfl
      have hslist : sectionIds (o :: rest) ++ futS
          = o.section_number :: (sectionIds rest ++ futS) := rfl
      rw [hclist] at hcR
      rw [hslist] at hsR
      have hstep : ∀ (hchF : o.chapter_number ≠ s.current_chapter →
            o.chapter_number ∉ keysOf s.chapters)
          (hseF : o.section_number ≠ s.current_section →
            o.section_number ∉ keysOf s.sections),
          CrossRefInv s1 ∧ ListedVersesExist s1 ∧
          keysOf s1.verses = keysOf s.verses ++ [vidOf o] ∧
          keysOf s1.pages = keysOf s.pages ∧
          ((o.chapter_number = s.current_chapter
              ∧ keysOf s1.chapters = keysOf s.chapters)
            ∨ (o.chapter_number ≠ s.current_chapter
              ∧ keysOf s1.chapters = keysOf s.chapters ++ [o.chapter_number])) ∧
          ((o.section_number = s.current_section
              ∧ keysOf s1.sections = keysOf s.sections)
            ∨ (o.section_number ≠ s.current_section
              ∧ keysOf s1.sections = keysOf s.sections ++ [o.section_number])) ∧
          s1.current_chapter = o.chapter_number ∧
          s1.current_section = o.section_number := by
        intro hchF hseF
        exact crossRefInv_ingest pid s o s1 ho hfresh hchF hseF hA hB
      -- chapter-side freshness and continuation from the no-re-entry check
      have hcCase : (o.chapter_number = s.current_chapter
            ∧ noReentryFrom s.current_chapter (keysOf s.chapters)
                (chapterIds rest ++ futC) = true)
          ∨ (o.chapter_number ≠ s.current_chapter
            ∧ o.chapter_number ∉ keysOf s.chapters
            ∧ noReentryFrom o.chapter_number
                (keysOf s.chapters ++ [o.chapter_number])
                (chapterIds rest ++ futC) = true) := by
        by_cases hoc : o.chapter_number = s.current_chapter
        · refine Or.inl ⟨hoc, ?_⟩
          simpa [noReentryFrom, hoc] using hcR
        · by_cases hmc : o.chapter_number ∈ keysOf s.chapters
          · exfalso
            simp [noReentryFrom, hoc, hmc] at hcR
          · refine Or.inr ⟨hoc, hmc, ?_⟩
            simpa [noReentryFrom, hoc, hmc] using hcR
      have hsCase : (o.section_number = s.current_section
            ∧ noReentryFrom s.current_section (keysOf s.sections)
                (sectionIds rest ++ futS) = true)
          ∨ (o.section_number ≠ s.current_section
            ∧ o.section_number ∉ keysOf s.sections
            ∧ noReentryFrom o.section_number
                (keysOf s.sections ++ [o.section_number])
                (sectionIds rest ++ futS) = true) := by
        by_cases hos : o.section_number = s.current_section
        · refine Or.inl ⟨hos, ?_⟩
          simpa [noReentryFrom, hos] using hsR
        · by_cases hms : o.section_number ∈ keysOf s.sections
          · exfalso
            simp [noReentryFrom, hos, hms] at hsR
          · refine Or.inr ⟨hos, hms, ?_⟩
            simpa [noReentryFrom, hos, hms] using hsR
      have hchF : o.chapter_number ≠ s.current_chapter →
          o.chapter_number ∉ keysOf s.chapters := by
        intro hne
        rcases hcCase with ⟨heq, -⟩ | ⟨-, hmc, -⟩
        · exact absurd heq hne
        · exact hmc
      have hseF : o.section_number ≠ s.current_section →
          o.section_number ∉ keysOf s.sections := by
        intro hne
        rcases hsCase with ⟨heq, -⟩ | ⟨-, hms, -⟩
        · exact absurd heq hne
        · exact hms
      obtain ⟨hA1, hB1, hkV1, hkP1, hkC1, hkS1, hcur1, hsur1⟩ := hstep hchF hseF
      have hcR1 : noReentryFrom s1.current_chapter (keysOf s1.chapters)
          (chapterIds rest ++ futC) = true := by
        rcases hkC1 with ⟨heq, hkeq⟩ | ⟨hne, hkeq⟩
        · rw [hcur1, hkeq, heq]
          rcases hcCase with ⟨-, hcont⟩ | ⟨hne2, -, -⟩
          · exact hcont
          · exact absurd heq hne2
        · rw [hcur1, hkeq]
          rcases hcCase with ⟨heq2, -⟩ | ⟨-, -, hcont⟩
          · exact absurd heq2 hne
          · exact hcont
      have hsR1 : noReentryFrom s1.current_section (keysOf s1.sections)
          (sectionIds rest ++ futS) = true := by
        rcases hkS1 with ⟨heq, hkeq⟩ | ⟨hne, hkeq⟩
        · rw [hsur1, hkeq, heq]
          rcases hsCase with ⟨-, hcont⟩ | ⟨hne2, -, -⟩
          · exact hcont
          · exact absurd heq hne2
        · rw [hsur1, hkeq]
          rcases hsCase with ⟨heq2, -⟩ | ⟨-, -, hcont⟩
          · exact absurd heq2 hne
          · exact hcont
      have hn1 : (keysOf s1.verses ++ verseIds rest).Nodup := by
        rw [hkV1, List.append_assoc]
        simpa [List.singleton_append] using hn
      have hpg1 : pid ∈ keysOf s1.pages := by
        rw [hkP1]
        exact hpg
      obtain ⟨hA2, hB2, hkV2, hkP2, hcR2, hsR2⟩ :=
        c3_ingestList rest pid s1 s' futC futS h hA1 hB1 hpg1 hn1 hcR1 hsR1
      refine ⟨hA2, hB2, ?_, ?_, hcR2, hsR2⟩
      · rw [hkV2, hkV1, List.append_assoc]
        rfl
      · rw [hkP2, hkP1]

theorem c3_runFrom : ∀ (ps : List PageObs) (s s' : AggState),
    runFrom s ps = some s' →
    CrossRefInv s → ListedVersesExist s →
    (keysOf s.verses ++ verseIds (obsStream ps)).Nodup →
    (keysOf s.pages ++ ps.map PageObs.page_number).Nodup →
    noReentryFrom s.current_chapter (keysOf s.chapters)
      (chapterIds (obsStream ps)) = true →
    noReentryFrom s.current_section (keysOf s.sections)
      (sectionIds (obsStream ps)) = true →
    CrossRefInv s' ∧ ListedVersesExist s'
  | [], s, s', h, hA, hB, _, _, _, _ => by
    simp [runFrom] at h
    rw [← h]
    exact ⟨hA, hB⟩
  | p :: rest, s, s', h, hA, hB, hnV, hnP, hcR, hsR => by
    unfold runFrom at h
    rcases hp : runPage s p with _ | s1
    · rw [hp] at h
      exact Option.noConfusion h
    · rw [hp] at h
      unfold runPage at hp
      rcases hl : ingestList p.page_number (startPage s p.page_number) p.verses
          with _ | s2
      · rw [hl] at hp
        exact Option.noConfusion hp
      · rw [hl] at hp
        have hp2 : endPage s2 p.page_number = some s1 := hp
        -- stream splits
        have hsplitV : verseIds (obsStream (p :: rest))
            = verseIds p.verses ++ verseIds (obsStream rest) :=
          List.map_append _ _ _
        have hsplitC : chapterIds (obsStream (p :: rest))
            = chapterIds p.verses ++ chapterIds (obsStream rest) :=
          List.map_append _ _ _
        have hsplitS : sectionIds (obsStream (p :: rest))
            = sectionIds p.verses ++ sectionIds (obsStream rest) :=
          List.map_append _ _ _
        rw [hsplitV] at hnV
        rw [hsplitC] at hcR
        rw [hsplitS] at hsR
        -- page id is fresh
        have hpfresh : p.page_number ∉ keysOf s.pages := by
          rw [List.nodup_append] at hnP
          intro hmem
          exact hnP.2.2 hmem (by simp)
        -- startPage facts
        have hA0 := crossRefInv_startPage s p.page_number hpfresh hA
        have hB0 := listedVersesExist_startPage s p.page_number hB
        have hkP0 : keysOf (startPage s p.page_number).pages
            = keysOf s.pages ++ [p.page_number] := by
          show keysOf (upsert s.pages p.page_number _) = _
          exact keysOf_upsert_not_mem _ _ _ hpfresh
        have hpg0 : p.page_number ∈ keysOf (startPage s p.page_number).pages := by
          rw [hkP0]
          simp
        have hV0 : (startPage s p.page_number).verses = s.verses := rfl
        have hC0 : (startPage s p.page_number).chapters = s.chapters := rfl
        have hS0 : (startPage s p.page_number).sections = s.sections := rfl
        have hcc0 : (startPage s p.page_number).current_chapter
            = s.current_chapter := rfl
        have hcs0 : (startPage s p.page_number).current_section
            = s.current_section := rfl
        have hnV0 : (keysOf (startPage s p.page_number).verses
            ++ verseIds p.verses).Nodup := by
          rw [hV0]
          rw [← List.append_assoc] at hnV
          exact hnV.sublist (List.sublist_append_left _ _)
        have hcR0 : noReentryFrom (startPage s p.page_number).current_chapter
            (keysOf (startPage s p.page_number).chapters)
            (chapterIds p.verses ++ chapterIds (obsStream rest)) = true := by
          rw [hcc0, hC0]
          exact hcR
        have hsR0 : noReentryFrom (startPage s p.page_number).current_section
            (keysOf (startPage s p.page_number).sections)
            (sectionIds p.verses ++ sectionIds (obsStream rest)) = true := by
          rw [hcs0, hS0]
          exact hsR
        obtain ⟨hA2, hB2, hkV2, hkP2, hcR2, hsR2⟩ :=
          c3_ingestList p.verses p.page_number (startPage s p.page_number) s2
            (chapterIds (obsStream rest)) (sectionIds (obsStream rest))
            hl hA0 hB0 hpg0 hnV0 hcR0 hsR0
        -- endPage facts
        have hA1 := crossRefInv_endPage s2 p.page_number s1 hp2 hA2
        have hB1 := listedVersesExist_endPage s2 p.page_number s1 hp2 hB2
        obtain ⟨hfV, hfP, hfC, hfS, hfcc, hfcs⟩ :=
          endPage_some_fields s2 p.page_number s1 hp2
        -- recurse
        refine c3_runFrom rest s1 s' h hA1 hB1 ?_ ?_ ?_ ?_
        · rw [hfV, hkV2, hV0, List.append_assoc]
          exact hnV
        · rw [hfP, hkP2, hkP0, List.append_assoc]
          simpa [List.singleton_append] using hnP
        · rw [hfcc, hfC]
          exact hcR2
        · rw [hfcs, hfS]
          exact hsR2

/-- C3 (amended): for a stream with pairwise-distinct verse ids, pairwise-
distinct page numbers, and no re-entry of a chapter id or section id after
the stream has moved away from it (each id occupies one contiguous run),
every verse record of a completed run resolves to existing page, chapter
and section records whose verse lists contain that verse id exactly once.
(The no-re-entry conditions are forced by the unconditional overwrite of
lines 316/331, the distinctness conditions by the dict overwrites of lines
264/291/303 — see the counterexamples of C2-C5.) -/
theorem c3_cross_references (ps : List PageObs) (s : AggState)
    (hv : (verseIds (obsStream ps)).Nodup)
    (hpN : (ps.map PageObs.page_number).Nodup)
    (hcN : noReentryFrom 0 [] (chapterIds (obsStream ps)) = true)
    (hsN : noReentryFrom 0 [] (sectionIds (obsStream ps)) = true)
    (h : run ps = some s) :
    ∀ k v, lookup s.verses k = some v →
      ((lookup s.pages v.page).map fun pg => pg.verses.count k) = some 1 ∧
      ((lookup s.chapters v.chapter).map fun c => c.verses.count k) = some 1 ∧
      ((lookup s.sections v.sectionId).map fun x => x.verses.count k) = some 1 := by
  have hA0 : CrossRefInv initState := by
    intro k v hkv
    exact Option.noConfusion hkv
  have hB0 : ListedVersesExist initState := by
    refine ⟨?_, ?_, ?_⟩ <;> intro e he <;> simp [initState] at he
  obtain ⟨hA, -⟩ := c3_runFrom ps initState s h hA0 hB0
    (by simpa using hv) (by simpa using hpN) hcN hsN
  exact hA

/-- Witness for `c3_cross_references` on the end-to-end stream at verse
"1:1". -/
theorem c3_cross_references_witness :
    ((lookup ((run endToEndInput).getD initState).pages 1).map
      fun pg => pg.verses.count "1:1") = some 1 ∧
    ((lookup ((run endToEndInput).getD initState).chapters 1).map
      fun c => c.verses.count "1:1") = some 1 ∧
    ((lookup ((run endToEndInput).getD initState).sections 1).map
      fun x => x.verses.count "1:1") = some 1 :=
  c3_cross_references endToEndInput ((run endToEndInput).getD initState)
    (by decide) (by decide) (by decide) (by decide) rfl "1:1"
    { id := "1:1", number := 1, arabic_unicodes := ["word1", "word2"],
      explanations := ["1:1"], page := 1, sectionId := 1, chapter := 1 } rfl

/-! ## Concrete scenario results -/

/-- C1 (counterexample): in the end-to-end scenario the code leaves chapter
1's pages list empty — the claim asserts it is `[1]`.  The page id is
appended only to the chapter current at the end of the page (chapter 2),
line 353. -/
theorem c1_counterexample :
    ((run endToEndInput).bind fun s => (lookup s.chapters 1).map Chapter.pages)
        = some [] ∧
    ((run endToEndInput).bind fun s => (lookup s.chapters 1).map Chapter.pages)
        ≠ some [1] := by
  constructor
  · rfl
  · decide

/-- C1 (amended): the end-to-end scenario yields chapters keyed {1, 2};
chapter 1 with verses ["1:1", "1:2"] and an empty pages list; chapter 2 with
verses ["2:1"] and pages [1]; page 1 with verses ["1:1", "1:2", "2:1"],
chapter set {1, 2} and section set {1}; and section 1 with chapter set
{1, 2} and pages [1]. -/
theorem c1_amended_scenario :
    ((run endToEndInput).map fun s => keysOf s.chapters) = some [1, 2] ∧
    ((run endToEndInput).bind fun s => (lookup s.chapters 1).map Chapter.verses)
        = some ["1:1", "1:2"] ∧
    ((run endToEndInput).bind fun s => (lookup s.chapters 1).map Chapter.pages)
        = some [] ∧
    ((run endToEndInput).bind fun s => (lookup s.chapters 2).map Chapter.verses)
        = some ["2:1"] ∧
    ((run endToEndInput).bind fun s => (lookup s.chapters 2).map Chapter.pages)
        = some [1] ∧
    ((run endToEndInput).bind fun s => (lookup s.pages 1).map Page.verses)
        = some ["1:1", "1:2", "2:1"] ∧
    ((run endToEndInput).bind fun s => (lookup s.pages 1).map Page.chapters)
        = some [1, 2] ∧
    ((run endToEndInput).bind fun s => (lookup s.pages 1).map Page.sections)
        = some [1] ∧
    ((run endToEndInput).bind fun s => (lookup s.sections 1).map Section.chapters)
        = some [1, 2] ∧
    ((run endToEndInput).bind fun s => (lookup s.sections 1).map Section.pages)
        = some [1] := by
  refine ⟨rfl, rfl, rfl, rfl, rfl, rfl, rfl, rfl, rfl, rfl⟩

/-- C2 (counterexample): chapter 1 is created with verses ["1:1"]; after the
stream moves to chapter 2 and back to chapter 1, the change-detection block
overwrites the existing chapter-1 record with a fresh one (line 316 has no
presence check), so its verses list is reset and ends as ["1:2"]. -/
theorem c2_counterexample :
    ((ingestList 1 (startPage initState 1) [mkObs 1 1 1, mkObs 2 1 1]).bind
        fun s => (lookup s.chapters 1).map Chapter.verses) = some ["1:1"] ∧
    ((run reentryInput).bind fun s => (lookup s.chapters 1).map Chapter.verses)
        = some ["1:2"] := by
  refine ⟨rfl, rfl⟩

/-- C3 (counterexample): after the chapters-1,2,1 stream, verse "1:1" is in
the verses dict with chapter 1, but the chapter-1 record (reset on
re-entry) contains "1:1" zero times, not exactly once. -/
theorem c3_counterexample :
    ((run reentryInput).bind fun s => (lookup s.verses "1:1").map Verse.chapter)
        = some 1 ∧
    ((run reentryInput).bind fun s =>
        (lookup s.chapters 1).map fun c => c.verses.count "1:1") = some 0 := by
  refine ⟨rfl, rfl⟩

/-- C4 (counterexample): two observations of the same verse produce one
explanation record, not two — `explanation_id` equals the verse id
(line 287), so the second observation overwrites the first record. -/
theorem c4_counterexample :
    (obsStream duplicateInput).length = 2 ∧
    ((run duplicateInput).map fun s => s.explanations.length) = some 1 := by
  refine ⟨rfl, rfl⟩

/-- C5 (counterexample): observing verse "1:1" with section 2 and then with
section 5 leaves page 1's section set as {2, 5}, while the verses in its
verse list (two copies of "1:1") resolve to the overwritten record with
section 5 only — so the set has the extra member 2. -/
theorem c5_counterexample :
    ((run sectionDupInput).bind fun s => (lookup s.pages 1).map Page.sections)
        = some [2, 5] ∧
    ((run sectionDupInput).bind fun s => (lookup s.pages 1).map Page.verses)
        = some ["1:1", "1:1"] ∧
    ((run sectionDupInput).bind fun s => (lookup s.verses "1:1").map Verse.sectionId)
        = some 5 := by
  refine ⟨rfl, rfl, rfl⟩

/-- C7: a cancellation after two of the five planned observations leaves the
five collections reflecting exactly those two observations (the `except`
clause swallows the interrupt and keeps the state), but the `finally`
block's serialization then raises: `json.dump` of the pages dict fails on
its set-valued fields, so the pages, chapters, sections and explanations
files are never written.  The claim's "finalization does not raise" is
false on the code. -/
theorem c7_cancellation_bug :
    (cancelAfterTwo.map fun s => keysOf s.verses) = some ["1:1", "1:2"] ∧
    (cancelAfterTwo.map fun s => keysOf s.explanations) = some ["1:1", "1:2"] ∧
    (cancelAfterTwo.bind fun s => (lookup s.pages 1).map Page.verses)
        = some ["1:1", "1:2"] ∧
    (cancelAfterTwo.map fun s => keysOf s.chapters) = some [1] ∧
    (cancelAfterTwo.map fun s => keysOf s.sections) = some [1] ∧
    (cancelAfterTwo.map finalize) = some (Except.error "pages") := by
  refine ⟨rfl, rfl, rfl, rfl, rfl, rfl⟩

end QuranScrapper
